import Mathlib

/-!
# Verification of the `EventManager` publish/subscribe registry

Shallow embedding of `src/EventManager.ts` (class `EventManager<M>`): a
registry holding two indexes over subscription records — `_eventNodesMapByType`
(event type → ordered array of event nodes) and `_eventNodeMapById`
(id string → event node) — with operations `on`, `once`, `off` (two overload
shapes), `emit`, `getEventNodes`, `offAll` (two overload shapes) and
`getStatusInfo`.

Modelling decisions:
* JavaScript `Map` objects are modelled as insertion-ordered association
  lists (`lookupA`/`setA`/`eraseA` mirror `get`/`set`/`delete`; `Map.set`
  on an existing key replaces the value in place, preserving order).
* Event types (`keyof M`) are an opaque comparable domain, modelled as `Nat`.
* Listener and target values are JavaScript values compared with `===`.
  Targets are modelled by `JSVal`, a small universe of JS values with the
  JS truthiness predicate (`if (eventNode.target)` tests truthiness, not
  presence).  Listeners are opaque callables: a reference code for `===`
  comparison plus a `Beh` describing what the listener's body does when
  invoked (nothing, re-entrant registry calls, or throwing) — `emit` is the
  only place listener bodies run, and they may call back into the registry.
* Ids are the decimal strings `${this._id++}` produced by `_generateId`,
  i.e. `Nat.repr` of a per-instance counter.
* An invocation of a listener is recorded as a `Call` carrying the
  subscription id, the listener reference, the `this` binding
  (`some target` for the bound `listener.call(target, ...data)` branch,
  `none` for the unbound `listener(...data)` branch), the arguments, and
  the registry state at the moment the listener body starts.  A listener
  throwing is an error flag that aborts the remaining iteration, as an
  uncaught JS exception does.
-/

/-- A JavaScript value, as far as the registry observes one: `===` equality
and truthiness.  Distinct objects are distinguished by a reference code. -/
inductive JSVal where
  | vundef : JSVal
  | vnull : JSVal
  | vbool : Bool → JSVal
  | vnum : Int → JSVal
  | vstr : String → JSVal
  | vobj : Nat → JSVal
deriving DecidableEq, Repr

/-- JavaScript truthiness of a `JSVal` (the test `if (eventNode.target)`). -/
def JSVal.truthy : JSVal → Bool
  | .vundef => false
  | .vnull => false
  | .vbool b => b
  | .vnum i => decide (i ≠ 0)
  | .vstr s => decide (s ≠ "")
  | .vobj _ => true

/-- `IEventOptions`: the optional options bag `{ once?: boolean }`. -/
structure IEventOptions where
  once : Option Bool
deriving DecidableEq, Repr

/-- What a listener's body does when invoked: nothing, a re-entrant call
back into the same registry, or throwing an exception.  (`emit` itself is
not re-entered: the source never does and no claim needs it.) -/
inductive Beh where
  | inert : Beh
  | doOn : Nat → Nat → Beh → JSVal → Option IEventOptions → Beh
  | doOffTL : Nat → Nat → Beh → JSVal → Beh
  | doOffAll : Option Nat → Beh
  | doOffById : String → Beh
  | raiseErr : Beh
deriving DecidableEq, Repr

/-- A listener: an opaque callable.  `code` is its reference identity
(`===` compares function references), `beh` is what its body does. -/
structure Listener where
  code : Nat
  beh : Beh
deriving DecidableEq, Repr

/-- `IEventNode<M>`: one subscription record. -/
structure IEventNode where
  id : String
  type : Nat
  listener : Listener
  target : JSVal
  options : Option IEventOptions
deriving DecidableEq, Repr

/-- The truthiness test `eventNode.options?.once` used by `emit`. -/
def IEventNode.onceFlag (n : IEventNode) : Bool :=
  match n.options with
  | none => false
  | some o => o.once.getD false

section AList

variable {α : Type _} {β : Type _} [DecidableEq α]

/-- `Map.get`: the value at the first (in our use, only) entry with this key. -/
def lookupA : List (α × β) → α → Option β
  | [], _ => none
  | (k, v) :: rest, k' => if k' = k then some v else lookupA rest k'

/-- `Map.set`: replace the value in place if the key is present (JS `Map`
keeps the original insertion position), otherwise append a new entry. -/
def setA : List (α × β) → α → β → List (α × β)
  | [], k, v => [(k, v)]
  | (k0, v0) :: rest, k, v =>
      if k = k0 then (k, v) :: rest else (k0, v0) :: setA rest k v

/-- `Map.delete`: remove the first (in our use, only) entry with this key. -/
def eraseA : List (α × β) → α → List (α × β)
  | [], _ => []
  | (k0, v0) :: rest, k => if k = k0 then rest else (k0, v0) :: eraseA rest k

/-- `Map.keys()`: the keys in insertion order. -/
def keysA (l : List (α × β)) : List α := l.map Prod.fst

end AList
/-!
## Registry state and operations (`class EventManager`)
-/

/-- The mutable state of an `EventManager` instance: the `_id` counter and
the two indexes `_eventNodesMapByType` and `_eventNodeMapById`. -/
structure RegState where
  idCounter : Nat
  byType : List (Nat × List IEventNode)
  byId : List (String × IEventNode)
deriving DecidableEq, Repr

/-- A fresh instance: `_id = 0`, both maps empty. -/
def initState : RegState := ⟨0, [], []⟩

/-- `_generateId`: return the decimal string of the counter and bump it. -/
def generateId (st : RegState) : String × RegState :=
  (Nat.repr st.idCounter, { st with idCounter := st.idCounter + 1 })

/-- `_registerEventNode`: append the node to its type's bucket (fetching
`?? []` when absent) and insert it into the id index. -/
def registerEventNode (st : RegState) (node : IEventNode) : RegState :=
  let eventNodes := (lookupA st.byType node.type).getD []
  { st with
    byType := setA st.byType node.type (eventNodes ++ [node]),
    byId := setA st.byId node.id node }

/-- `_unregisterEventNode`: splice the node out of its type's bucket at its
`indexOf` position, delete the bucket if it became empty, and delete the id
from the id index.  (The in-place `splice` on the array held by the map is
modelled by writing the shortened bucket back with `setA`.) -/
def unregisterEventNode (st : RegState) (node : IEventNode) : RegState :=
  match lookupA st.byType node.type with
  | none => st
  | some eventNodes =>
    match eventNodes.findIdx? (fun x => x = node) with
    | none => st
    | some index =>
      let eventNodes' := eventNodes.eraseIdx index
      { st with
        byType :=
          if eventNodes'.length = 0 then eraseA st.byType node.type
          else setA st.byType node.type eventNodes',
        byId := eraseA st.byId node.id }

/-- `on`: create a node with a fresh id, register it, and return the new
state together with the id.  (The returned `offEventFunction` closure is
`() => this._offById(eventNode.id)`; theorems apply `offById` to the
returned id to model calling it.) -/
def «on» (st : RegState) (type : Nat) (listener : Listener) (target : JSVal)
    (options : Option IEventOptions) : RegState × String :=
  let (id, st1) := generateId st
  let node : IEventNode := ⟨id, type, listener, target, options⟩
  (registerEventNode st1 node, id)

/-- `once`: `on` with the options replaced by `{ ...options, once: true }`
(`IEventOptions` has only the `once` field, so the spread collapses to
`{ once: true }`). -/
def once (st : RegState) (type : Nat) (listener : Listener) (target : JSVal)
    (_options : Option IEventOptions) : RegState × String :=
  «on» st type listener target (some ⟨some true⟩)

/-- `_off(type, listener, target = null)`: find the first node in the
type's bucket whose listener and target are `===` to the given ones and
unregister it; no-op when the bucket or a match is missing. -/
def offTL (st : RegState) (type : Nat) (listener : Listener) (target : JSVal) :
    RegState :=
  match lookupA st.byType type with
  | none => st
  | some eventNodes =>
    match eventNodes.find? (fun n => n.listener = listener ∧ n.target = target) with
    | none => st
    | some eventNode => unregisterEventNode st eventNode

/-- `_offById`: look the id up in the id index and unregister the node;
no-op when absent.  The public `off` overload dispatch (`args.length === 1
&& typeof args[0] === "string"`) routes a single string to this function
and a `(type, listener, target)` triple to `offTL`. -/
def offById (st : RegState) (id : String) : RegState :=
  match lookupA st.byId id with
  | none => st
  | some eventNode => unregisterEventNode st eventNode

/-- `offAll`: without a type (`undefined`), clear both maps; with a type,
delete that bucket and delete each of its nodes from the id index. -/
def offAll (st : RegState) (type : Option Nat) : RegState :=
  match type with
  | none => { st with byType := [], byId := [] }
  | some t =>
    match lookupA st.byType t with
    | none => st
    | some eventNodes =>
      { st with
        byType := eraseA st.byType t,
        byId := eventNodes.foldl (fun m n => eraseA m n.id) st.byId }

/-- `getEventNodes`: the live bucket, or `[]` when absent (`?? []`). -/
def getEventNodes (st : RegState) (type : Nat) : List IEventNode :=
  (lookupA st.byType type).getD []

/-- The event types enumerated by `getStatusInfo`
(`Array.from(this._eventNodesMapByType.keys())`). -/
def statusTypes (st : RegState) : List Nat := keysA st.byType

/-- One recorded listener invocation during an `emit`. -/
structure Call where
  nid : String
  lcode : Nat
  thisCtx : Option JSVal
  args : List JSVal
  stAtCall : RegState
deriving DecidableEq, Repr

/-- Run a listener body: the state it leaves the registry in and whether it
threw.  Re-entrant calls go through the very operations defined above. -/
def applyBeh (st : RegState) : Beh → RegState × Bool
  | .inert => (st, false)
  | .doOn t lcode lbeh target opts => ((«on» st t ⟨lcode, lbeh⟩ target opts).1, false)
  | .doOffTL t lcode lbeh target => (offTL st t ⟨lcode, lbeh⟩ target, false)
  | .doOffAll t => (offAll st t, false)
  | .doOffById i => (offById st i, false)
  | .raiseErr => (st, true)

/-- The `for (const eventNode of nodesToExecute)` loop of `emit` over the
snapshot: skip nodes no longer in the id index, unregister `once` nodes
before invoking them, record the invocation (bound to the target exactly
when the target is truthy), run the body, and stop — propagating the
error — when the body throws. -/
def emitLoop (st : RegState) (ns : List IEventNode) (args : List JSVal) :
    RegState × List Call × Bool :=
  match ns with
  | [] => (st, [], false)
  | node :: rest =>
    if lookupA st.byId node.id = none then emitLoop st rest args
    else
      let st1 := if node.onceFlag then unregisterEventNode st node else st
      let c : Call :=
        ⟨node.id, node.listener.code,
          if node.target.truthy then some node.target else none, args, st1⟩
      let r := applyBeh st1 node.listener.beh
      if r.2 then (r.1, [c], true)
      else
        let r2 := emitLoop r.1 rest args
        (r2.1, c :: r2.2.1, r2.2.2)

/-- `emit`: no-op when the bucket is missing or empty; otherwise iterate
over the snapshot `[...eventNodes]` of the bucket (an immutable copy of the
list value).  Returns the final state, the invocations in order, and
whether a listener threw. -/
def emit (st : RegState) (type : Nat) (args : List JSVal) :
    RegState × List Call × Bool :=
  match lookupA st.byType type with
  | none => (st, [], false)
  | some eventNodes =>
    if eventNodes.length = 0 then (st, [], false)
    else emitLoop st eventNodes args

/-- A top-level registry operation, for reachability statements. -/
inductive Op where
  | opOn : Nat → Listener → JSVal → Option IEventOptions → Op
  | opOnce : Nat → Listener → JSVal → Option IEventOptions → Op
  | opOffTL : Nat → Listener → JSVal → Op
  | opOffById : String → Op
  | opOffAll : Option Nat → Op
  | opEmit : Nat → List JSVal → Op
deriving DecidableEq, Repr

/-- Apply one top-level operation (discarding return values). -/
def step (st : RegState) : Op → RegState
  | .opOn t l tg o => («on» st t l tg o).1
  | .opOnce t l tg o => (once st t l tg o).1
  | .opOffTL t l tg => offTL st t l tg
  | .opOffById i => offById st i
  | .opOffAll t => offAll st t
  | .opEmit t d => (emit st t d).1

/-- The state after running a sequence of operations on a fresh instance. -/
def run (ops : List Op) : RegState := ops.foldl step initState

/-- The node is present in the per-type bucket for its own type. -/
def NodeIn (st : RegState) (n : IEventNode) : Prop :=
  ∃ ns, lookupA st.byType n.type = some ns ∧ n ∈ ns

/-- Well-formedness of a registry state: the shape every reachable state
has.  Bucket membership and id-index membership determine each other, map
keys are unique, buckets are nonempty, nodes sit in the bucket of their own
type, and every issued id is the decimal rendering of an earlier counter
value. -/
structure WF (st : RegState) : Prop where
  typeKeysNodup : (keysA st.byType).Nodup
  idKeysNodup : (keysA st.byId).Nodup
  bucketNe : ∀ t ns, lookupA st.byType t = some ns → ns ≠ []
  bucketType : ∀ t ns, lookupA st.byType t = some ns → ∀ n ∈ ns, n.type = t
  bucketIdsNodup : ∀ t ns, lookupA st.byType t = some ns →
    (ns.map IEventNode.id).Nodup
  bucketToId : ∀ t ns, lookupA st.byType t = some ns →
    ∀ n ∈ ns, lookupA st.byId n.id = some n
  idToBucket : ∀ i n, lookupA st.byId i = some n → i = n.id ∧ NodeIn st n
  idBound : ∀ i ∈ keysA st.byId, ∃ k, k < st.idCounter ∧ i = Nat.repr k

/-- The observable part of a recorded invocation: subscription id,
listener reference, `this` binding, and arguments (the state snapshot is
projected away). -/
def Call.view (c : Call) : String × Nat × Option JSVal × List JSVal :=
  (c.nid, c.lcode, c.thisCtx, c.args)

/-- The invocation a snapshot node produces when fired with `args`. -/
def nodeView (args : List JSVal) (n : IEventNode) :
    String × Nat × Option JSVal × List JSVal :=
  (n.id, n.listener.code, if n.target.truthy then some n.target else none, args)

/-- The state change contributed by a run of inert listeners: each node
with the `once` flag is unregistered just before firing, the rest leave the
state alone. -/
def processOnce (st : RegState) (ns : List IEventNode) : RegState :=
  ns.foldl (fun s n => if n.onceFlag then unregisterEventNode s n else s) st

/-- One top-level operation together with the ids it hands back
(registrations return the fresh id; everything else returns none). -/
def stepAssigned (st : RegState) : Op → RegState × List String
  | .opOn t l tg o => ((«on» st t l tg o).1, [(«on» st t l tg o).2])
  | .opOnce t l tg o => ((once st t l tg o).1, [(once st t l tg o).2])
  | op => (step st op, [])

/-- All ids handed out by the registrations of an operation sequence, in
order. -/
def assignedIdsFrom (st : RegState) : List Op → List String
  | [] => []
  | op :: rest =>
      (stepAssigned st op).2 ++ assignedIdsFrom (stepAssigned st op).1 rest

/-!
## Properties
-/

section AList

variable {α : Type _} {β : Type _} [DecidableEq α]

@[simp] theorem lookupA_nil (k : α) : lookupA ([] : List (α × β)) k = none := rfl

theorem lookupA_cons (k0 : α) (v0 : β) (rest : List (α × β)) (k : α) :
    lookupA ((k0, v0) :: rest) k = if k = k0 then some v0 else lookupA rest k := rfl

theorem lookupA_eq_none_iff (l : List (α × β)) (k : α) :
    lookupA l k = none ↔ k ∉ keysA l := by
  induction l with
  | nil => simp [keysA]
  | cons hd tl ih =>
    obtain ⟨k0, v0⟩ := hd
    by_cases h : k = k0
    · simp [lookupA_cons, keysA, h]
    · simp only [lookupA_cons, if_neg h, keysA, List.map_cons, List.mem_cons]
      simpa [keysA, h] using ih

theorem mem_of_lookupA {l : List (α × β)} {k : α} {v : β} (h : lookupA l k = some v) :
    (k, v) ∈ l := by
  induction l with
  | nil => simp [lookupA] at h
  | cons hd tl ih =>
    obtain ⟨k0, v0⟩ := hd
    by_cases hk : k = k0
    · simp [lookupA_cons, hk] at h
      simp [hk, h]
    · simp [lookupA_cons, hk] at h
      exact List.mem_cons_of_mem _ (ih h)

theorem lookupA_setA_self (l : List (α × β)) (k : α) (v : β) :
    lookupA (setA l k v) k = some v := by
  induction l with
  | nil => simp [setA, lookupA_cons]
  | cons hd tl ih =>
    obtain ⟨k0, v0⟩ := hd
    by_cases h : k = k0 <;> simp [setA, h, lookupA_cons, ih]

theorem lookupA_setA_ne (l : List (α × β)) (k k' : α) (v : β) (h : k' ≠ k) :
    lookupA (setA l k v) k' = lookupA l k' := by
  induction l with
  | nil => simp [setA, lookupA_cons, h]
  | cons hd tl ih =>
    obtain ⟨k0, v0⟩ := hd
    by_cases hk : k = k0
    · subst hk
      simp [setA, lookupA_cons, h]
    · by_cases hk' : k' = k0 <;> simp [setA, hk, lookupA_cons, hk', ih]

theorem lookupA_eraseA_self (l : List (α × β)) (k : α) (h : (keysA l).Nodup) :
    lookupA (eraseA l k) k = none := by
  induction l with
  | nil => simp [eraseA]
  | cons hd tl ih =>
    obtain ⟨k0, v0⟩ := hd
    simp only [keysA, List.map_cons, List.nodup_cons] at h
    by_cases hk : k = k0
    · subst hk
      simp only [eraseA, if_pos rfl]
      exact (lookupA_eq_none_iff tl k).2 h.1
    · simp [eraseA, hk, lookupA_cons, ih h.2]

theorem lookupA_eraseA_ne (l : List (α × β)) (k k' : α) (h : k' ≠ k) :
    lookupA (eraseA l k) k' = lookupA l k' := by
  induction l with
  | nil => simp [eraseA]
  | cons hd tl ih =>
    obtain ⟨k0, v0⟩ := hd
    by_cases hk : k = k0
    · subst hk
      simp [eraseA, lookupA_cons, h]
    · simp [eraseA, hk, lookupA_cons, ih]

theorem keysA_setA (l : List (α × β)) (k : α) (v : β) :
    keysA (setA l k v) = if k ∈ keysA l then keysA l else keysA l ++ [k] := by
  induction l with
  | nil => simp [setA, keysA]
  | cons hd tl ih =>
    obtain ⟨k0, v0⟩ := hd
    by_cases h : k = k0
    · subst h
      simp [setA, keysA]
    · simp only [setA, if_neg h, keysA, List.map_cons]
      rw [show List.map Prod.fst (setA tl k v) = keysA (setA tl k v) from rfl, ih]
      by_cases hm : k ∈ List.map Prod.fst tl <;> simp [keysA, hm, h]

theorem keysA_nodup_setA (l : List (α × β)) (k : α) (v : β) (h : (keysA l).Nodup) :
    (keysA (setA l k v)).Nodup := by
  rw [keysA_setA]
  by_cases hm : k ∈ keysA l <;> simp [hm, h, List.Nodup.append, List.disjoint_singleton]

theorem keysA_eraseA_sublist (l : List (α × β)) (k : α) :
    List.Sublist (keysA (eraseA l k)) (keysA l) := by
  induction l with
  | nil => simp [eraseA]
  | cons hd tl ih =>
    obtain ⟨k0, v0⟩ := hd
    by_cases h : k = k0
    · simp only [eraseA, if_pos h, keysA, List.map_cons]
      exact List.sublist_cons_self _ _
    · simp only [eraseA, if_neg h, keysA, List.map_cons]
      exact List.Sublist.cons₂ _ ih

theorem keysA_nodup_eraseA (l : List (α × β)) (k : α) (h : (keysA l).Nodup) :
    (keysA (eraseA l k)).Nodup :=
  (keysA_eraseA_sublist l k).nodup h

theorem lookupA_eraseA_none {l : List (α × β)} {k : α} (k' : α)
    (h : lookupA l k' = none) : lookupA (eraseA l k) k' = none := by
  rw [lookupA_eq_none_iff] at h ⊢
  exact fun hm => h ((keysA_eraseA_sublist l k).mem hm)

end AList



/-!
## Injectivity of `_generateId`'s decimal rendering

`_generateId` returns the decimal string of a strictly increasing counter,
so distinct counter values yield distinct ids.  This is the injectivity of
`Nat.repr`, proved by relating the fuelled `Nat.toDigitsCore` to
`Nat.digits`.
-/

theorem toDigitsCore_eq_digits (f : Nat) :
    ∀ (n : Nat) (ds : List Char), 0 < n → n < f →
      Nat.toDigitsCore 10 f n ds =
        ((Nat.digits 10 n).map Nat.digitChar).reverse ++ ds := by
  induction f with
  | zero => intro n ds _ hf; exact absurd hf (Nat.not_lt_zero n)
  | succ f ih =>
    intro n ds hn hf
    rw [Nat.toDigitsCore]
    by_cases h : n / 10 = 0
    · have hd : Nat.digits 10 n = [n % 10] := by
        rw [Nat.digits_def' (by norm_num) hn, h, Nat.digits_zero]
      simp [h, hd]
    · have hn' : 0 < n / 10 := Nat.pos_of_ne_zero h
      have hlt : n / 10 < f :=
        Nat.lt_of_lt_of_le (Nat.div_lt_self hn (by norm_num)) (Nat.lt_succ_iff.1 hf)
      simp only [if_neg h]
      rw [ih (n / 10) _ hn' hlt, Nat.digits_def' (by norm_num) hn]
      simp

theorem repr_eq_digits (n : Nat) (hn : 0 < n) :
    Nat.repr n = (((Nat.digits 10 n).map Nat.digitChar).reverse).asString := by
  rw [Nat.repr, Nat.toDigits, toDigitsCore_eq_digits (n + 1) n [] hn (Nat.lt_succ_self n)]
  simp

theorem digitChar_injOn :
    ∀ a < 10, ∀ b < 10, Nat.digitChar a = Nat.digitChar b → a = b := by decide

theorem map_digitChar_inj :
    ∀ l1 l2 : List Nat, (∀ x ∈ l1, x < 10) → (∀ x ∈ l2, x < 10) →
      l1.map Nat.digitChar = l2.map Nat.digitChar → l1 = l2 := by
  intro l1
  induction l1 with
  | nil => intro l2 _ _ h; cases l2 <;> simp_all
  | cons a l1 ih =>
    intro l2 h1 h2 h
    cases l2 with
    | nil => simp at h
    | cons b l2 =>
      simp only [List.map_cons, List.cons.injEq] at h
      have ha : a = b :=
        digitChar_injOn a (h1 a (by simp)) b (h2 b (by simp)) h.1
      have : l1 = l2 :=
        ih l2 (fun x hx => h1 x (by simp [hx])) (fun x hx => h2 x (by simp [hx])) h.2
      rw [ha, this]

theorem repr_ne_zero_repr (n : Nat) (hn : 0 < n) : Nat.repr n ≠ Nat.repr 0 := by
  intro h
  rw [repr_eq_digits n hn, show Nat.repr 0 = List.asString ['0'] from rfl,
    List.asString_inj] at h
  have h' : (Nat.digits 10 n).map Nat.digitChar = ['0'] := by
    have := congrArg List.reverse h
    simpa using this
  have hlen : (Nat.digits 10 n).length = 1 := by
    have := congrArg List.length h'
    simpa using this
  obtain ⟨d, hd⟩ := List.length_eq_one.1 hlen
  have hmap : Nat.digitChar d = '0' := by
    rw [hd] at h'
    simpa using h'
  have hdmem : d ∈ Nat.digits 10 n := by
    rw [hd]
    exact List.mem_singleton.2 rfl
  have hdlt : d < 10 := Nat.digits_lt_base (by norm_num) hdmem
  have hd0 : d = 0 := digitChar_injOn d hdlt 0 (by norm_num) hmap
  have h0 := Nat.ofDigits_digits 10 n
  rw [hd, hd0] at h0
  simp [Nat.ofDigits] at h0
  omega

theorem natRepr_injective : Function.Injective Nat.repr := by
  intro m n h
  rcases Nat.eq_zero_or_pos m with hm | hm
  · rcases Nat.eq_zero_or_pos n with hn | hn
    · rw [hm, hn]
    · exact absurd h.symm (repr_ne_zero_repr n hn ∘ (hm ▸ ·))
  · rcases Nat.eq_zero_or_pos n with hn | hn
    · exact absurd h (hn ▸ repr_ne_zero_repr m hm)
    · rw [repr_eq_digits m hm, repr_eq_digits n hn, List.asString_inj] at h
      have h' := congrArg List.reverse h
      simp only [List.reverse_reverse] at h'
      have hd : Nat.digits 10 m = Nat.digits 10 n :=
        map_digitChar_inj _ _
          (fun x hx => Nat.digits_lt_base (by norm_num) hx)
          (fun x hx => Nat.digits_lt_base (by norm_num) hx) h'
      have := congrArg (Nat.ofDigits 10) hd
      rwa [Nat.ofDigits_digits, Nat.ofDigits_digits] at this

/-!
## The dual-index well-formedness invariant
-/


theorem WF_initState : WF initState := by
  constructor <;> simp [initState, keysA, NodeIn]

theorem WF.nodeIn_toId {st : RegState} (h : WF st) {n : IEventNode}
    (hn : NodeIn st n) : lookupA st.byId n.id = some n := by
  obtain ⟨ns, hns, hmem⟩ := hn
  exact h.bucketToId _ _ hns n hmem

theorem mem_keysA_of_lookupA {α β : Type _} [DecidableEq α]
    {l : List (α × β)} {k : α} {v : β} (h : lookupA l k = some v) :
    k ∈ keysA l := by
  by_contra hk
  rw [← lookupA_eq_none_iff] at hk
  simp [h] at hk

theorem WF.live_id_bound {st : RegState} (h : WF st) {n : IEventNode}
    (hn : lookupA st.byId n.id = some n) :
    ∃ k, k < st.idCounter ∧ n.id = Nat.repr k :=
  h.idBound n.id (mem_keysA_of_lookupA hn)

/-!
## `on` / `_registerEventNode`
-/

@[simp] theorem registerEventNode_byId (st : RegState) (node : IEventNode) :
    (registerEventNode st node).byId = setA st.byId node.id node := rfl

@[simp] theorem registerEventNode_byType (st : RegState) (node : IEventNode) :
    (registerEventNode st node).byType =
      setA st.byType node.type (((lookupA st.byType node.type).getD []) ++ [node]) := rfl

@[simp] theorem registerEventNode_idCounter (st : RegState) (node : IEventNode) :
    (registerEventNode st node).idCounter = st.idCounter := rfl

theorem on_dest (st : RegState) (t : Nat) (l : Listener) (tg : JSVal)
    (o : Option IEventOptions) :
    «on» st t l tg o =
      (registerEventNode { st with idCounter := st.idCounter + 1 }
        ⟨Nat.repr st.idCounter, t, l, tg, o⟩, Nat.repr st.idCounter) := rfl

theorem WF.fresh_id_not_mem {st : RegState} (h : WF st) :
    Nat.repr st.idCounter ∉ keysA st.byId := by
  intro hmem
  obtain ⟨k, hk, he⟩ := h.idBound _ hmem
  exact absurd (natRepr_injective he) (Nat.ne_of_gt hk)

theorem WF_counter_mono {st : RegState} (h : WF st) {c : Nat}
    (hc : st.idCounter ≤ c) : WF { st with idCounter := c } := by
  refine ⟨h.typeKeysNodup, h.idKeysNodup, h.bucketNe, h.bucketType,
    h.bucketIdsNodup, h.bucketToId, ?_, ?_⟩
  · intro i n hl
    obtain ⟨hi, ns, hns, hmem⟩ := h.idToBucket i n hl
    exact ⟨hi, ns, hns, hmem⟩
  · intro i hi
    obtain ⟨k, hk, he⟩ := h.idBound i hi
    exact ⟨k, lt_of_lt_of_le hk hc, he⟩

theorem registerEventNode_WF {st : RegState} (h : WF st) {node : IEventNode}
    (hfr : node.id ∉ keysA st.byId)
    (hbound : ∃ k, k < st.idCounter ∧ node.id = Nat.repr k) :
    WF (registerEventNode st node) := by
  have hfr' : lookupA st.byId node.id = none := (lookupA_eq_none_iff _ _).2 hfr
  have hidne : ∀ n : IEventNode, lookupA st.byId n.id = some n → n.id ≠ node.id := by
    intro n hn he
    rw [he, hfr'] at hn
    exact Option.noConfusion hn
  constructor
  · simpa using keysA_nodup_setA _ _ _ h.typeKeysNodup
  · simpa using keysA_nodup_setA _ _ _ h.idKeysNodup
  · intro t' ns' hl
    by_cases ht : t' = node.type
    · subst ht
      rw [registerEventNode_byType, lookupA_setA_self] at hl
      cases hl
      simp
    · rw [registerEventNode_byType, lookupA_setA_ne _ _ _ _ ht] at hl
      exact h.bucketNe t' ns' hl
  · intro t' ns' hl n hn
    by_cases ht : t' = node.type
    · subst ht
      rw [registerEventNode_byType, lookupA_setA_self] at hl
      cases hl
      rcases List.mem_append.1 hn with hn | hn
      · rcases hh : lookupA st.byType node.type with _ | ns
        · rw [hh] at hn; simp at hn
        · rw [hh] at hn; exact h.bucketType _ _ hh n hn
      · simp at hn; rw [hn]
    · rw [registerEventNode_byType, lookupA_setA_ne _ _ _ _ ht] at hl
      exact h.bucketType t' ns' hl n hn
  · intro t' ns' hl
    by_cases ht : t' = node.type
    · subst ht
      rw [registerEventNode_byType, lookupA_setA_self] at hl
      cases hl
      rw [List.map_append]
      refine List.Nodup.append ?_ (by simp) ?_
      · rcases hh : lookupA st.byType node.type with _ | ns
        · simp
        · exact h.bucketIdsNodup _ _ hh
      · intro i hi hi'
        simp only [List.map_cons, List.map_nil, List.mem_singleton] at hi'
        subst hi'
        rcases hh : lookupA st.byType node.type with _ | ns
        · rw [hh] at hi; simp at hi
        · rw [hh] at hi
          simp only [List.mem_map] at hi
          obtain ⟨n, hn, hni⟩ := hi
          have := h.bucketToId _ _ hh n hn
          exact hidne n this (by rw [hni])
    · rw [registerEventNode_byType, lookupA_setA_ne _ _ _ _ ht] at hl
      exact h.bucketIdsNodup t' ns' hl
  · intro t' ns' hl n hn
    by_cases ht : t' = node.type
    · subst ht
      rw [registerEventNode_byType, lookupA_setA_self] at hl
      cases hl
      rcases List.mem_append.1 hn with hn | hn
      · rcases hh : lookupA st.byType node.type with _ | ns
        · rw [hh] at hn; simp at hn
        · rw [hh] at hn
          have hlive := h.bucketToId _ _ hh n hn
          rw [registerEventNode_byId, lookupA_setA_ne _ _ _ _ (hidne n hlive)]
          exact hlive
      · simp only [List.mem_singleton] at hn
        subst hn
        rw [registerEventNode_byId]
        exact lookupA_setA_self _ _ _
    · rw [registerEventNode_byType, lookupA_setA_ne _ _ _ _ ht] at hl
      have hlive := h.bucketToId t' ns' hl n hn
      rw [registerEventNode_byId, lookupA_setA_ne _ _ _ _ (hidne n hlive)]
      exact hlive
  · intro i n hl
    by_cases hi : i = node.id
    · subst hi
      rw [registerEventNode_byId, lookupA_setA_self] at hl
      cases hl
      refine ⟨rfl, ((lookupA st.byType node.type).getD []) ++ [node], ?_, by simp⟩
      rw [registerEventNode_byType]
      exact lookupA_setA_self _ _ _
    · rw [registerEventNode_byId, lookupA_setA_ne _ _ _ _ hi] at hl
      obtain ⟨hi', ns, hns, hmem⟩ := h.idToBucket i n hl
      refine ⟨hi', ?_⟩
      by_cases ht : n.type = node.type
      · have hold : ((lookupA st.byType node.type).getD []) = ns := by
          rw [← ht, hns]
          rfl
        refine ⟨ns ++ [node], ?_, List.mem_append_left _ hmem⟩
        rw [registerEventNode_byType, ht, ← hold]
        exact lookupA_setA_self _ _ _
      · refine ⟨ns, ?_, hmem⟩
        rw [registerEventNode_byType, lookupA_setA_ne _ _ _ _ ht]
        exact hns
  · intro i hi
    rw [registerEventNode_byId] at hi
    rw [show keysA (setA st.byId node.id node) =
        if node.id ∈ keysA st.byId then keysA st.byId else keysA st.byId ++ [node.id]
      from keysA_setA _ _ _, if_neg hfr] at hi
    rcases List.mem_append.1 hi with hi | hi
    · exact h.idBound i hi
    · simp only [List.mem_singleton] at hi
      subst hi
      exact hbound

theorem on_WF (st : RegState) (t : Nat) (l : Listener) (tg : JSVal)
    (o : Option IEventOptions) (h : WF st) : WF («on» st t l tg o).1 := by
  rw [on_dest]
  refine registerEventNode_WF (WF_counter_mono h (Nat.le_succ _)) ?_ ?_
  · exact h.fresh_id_not_mem
  · exact ⟨st.idCounter, Nat.lt_succ_self _, rfl⟩

theorem once_WF (st : RegState) (t : Nat) (l : Listener) (tg : JSVal)
    (o : Option IEventOptions) (h : WF st) : WF (once st t l tg o).1 :=
  on_WF st t l tg _ h

/-!
## `_unregisterEventNode`

`splice(indexOf(node), 1)` removes the first occurrence of the node, which
is `List.erase`.  We prove the bridge once and use `erase` from then on.
-/

theorem findIdx_eraseIdx_eq_erase {α : Type _} [DecidableEq α] (l : List α) (a : α) :
    ∀ i, l.findIdx? (fun x => x = a) = some i → l.eraseIdx i = l.erase a := by
  induction l with
  | nil => intro i h; simp at h
  | cons b l ih =>
    intro i h
    by_cases hb : b = a
    · subst hb
      simp at h
      subst h
      simp [List.eraseIdx]
    · rw [List.findIdx?_cons] at h
      simp only [decide_eq_true_eq, if_neg hb, Nat.zero_add, List.findIdx?_start_succ] at h
      simp only [Option.map_eq_some'] at h
      obtain ⟨j, hj, hij⟩ := h
      subst hij
      rw [List.erase_cons_tail (by simp [hb]), show (j + 1 = j + 1) from rfl]
      simp only [List.eraseIdx_cons_succ, List.cons.injEq, true_and]
      exact ih j hj

theorem findIdx_none_of_not_mem {α : Type _} [DecidableEq α] {l : List α} {a : α}
    (h : a ∉ l) : l.findIdx? (fun x => x = a) = none := by
  rw [List.findIdx?_eq_none_iff]
  intro x hx
  have hne : x ≠ a := fun he => h (he ▸ hx)
  simp [hne]

/-- When the node is absent from its type's bucket (or the bucket is
absent), `_unregisterEventNode` is the identity. -/
theorem unregisterEventNode_not_mem (st : RegState) (node : IEventNode)
    (h : ∀ ns, lookupA st.byType node.type = some ns → node ∉ ns) :
    unregisterEventNode st node = st := by
  unfold unregisterEventNode
  rcases hns : lookupA st.byType node.type with _ | ns
  · simp [hns]
  · simp only [hns, findIdx_none_of_not_mem (h ns hns)]

/-- The closed form of `_unregisterEventNode` when the node is in its
bucket: the bucket loses its first occurrence of the node (disappearing
entirely when that empties it) and the id leaves the id index. -/
theorem unregisterEventNode_dest {st : RegState} {node : IEventNode}
    {ns : List IEventNode} (hns : lookupA st.byType node.type = some ns)
    (hmem : node ∈ ns) :
    unregisterEventNode st node =
      { st with
        byType :=
          if ns.erase node = [] then eraseA st.byType node.type
          else setA st.byType node.type (ns.erase node),
        byId := eraseA st.byId node.id } := by
  unfold unregisterEventNode
  rcases hfi : ns.findIdx? (fun x => x = node) with _ | i
  · rw [List.findIdx?_eq_none_iff] at hfi
    have := hfi node hmem
    simp at this
  · have herase := findIdx_eraseIdx_eq_erase ns node i hfi
    simp only [hns, hfi, herase, List.length_eq_zero]

theorem unregisterEventNode_idCounter (st : RegState) (node : IEventNode) :
    (unregisterEventNode st node).idCounter = st.idCounter := by
  by_cases hm : ∃ ns, lookupA st.byType node.type = some ns ∧ node ∈ ns
  · obtain ⟨ns, hns, hmem⟩ := hm
    rw [unregisterEventNode_dest hns hmem]
  · rw [unregisterEventNode_not_mem st node (fun ns hns hmem => hm ⟨ns, hns, hmem⟩)]

theorem unregisterEventNode_WF {st : RegState} (h : WF st) (node : IEventNode) :
    WF (unregisterEventNode st node) := by
  by_cases hm : ∃ ns, lookupA st.byType node.type = some ns ∧ node ∈ ns
  case neg =>
    rw [unregisterEventNode_not_mem st node
      (fun ns hns hmem => hm ⟨ns, hns, hmem⟩)]
    exact h
  case pos =>
  obtain ⟨ns, hns, hmem⟩ := hm
  rw [unregisterEventNode_dest hns hmem]
  have hlive : lookupA st.byId node.id = some node := h.bucketToId _ _ hns node hmem
  have hidsnd : (ns.map IEventNode.id).Nodup := h.bucketIdsNodup _ _ hns
  have hnsnd : ns.Nodup := hidsnd.of_map _
  have injOn := List.inj_on_of_nodup_map hidsnd
  have hbt_ne : ∀ t', t' ≠ node.type →
      lookupA (if ns.erase node = [] then eraseA st.byType node.type
        else setA st.byType node.type (ns.erase node)) t' = lookupA st.byType t' := by
    intro t' ht'
    split
    · exact lookupA_eraseA_ne _ _ _ ht'
    · exact lookupA_setA_ne _ _ _ _ ht'
  have hid_ne_of_live : ∀ n : IEventNode, lookupA st.byId n.id = some n →
      n ≠ node → n.id ≠ node.id := by
    intro n hn hne he
    rw [he, hlive] at hn
    exact hne (Option.some_injective _ hn).symm
  constructor
  · split
    · exact keysA_nodup_eraseA _ _ h.typeKeysNodup
    · exact keysA_nodup_setA _ _ _ h.typeKeysNodup
  · exact keysA_nodup_eraseA _ _ h.idKeysNodup
  · intro t' bs hl
    by_cases ht : t' = node.type
    · subst ht
      by_cases hc : ns.erase node = []
      · rw [if_pos hc, lookupA_eraseA_self _ _ h.typeKeysNodup] at hl
        exact Option.noConfusion hl
      · rw [if_neg hc, lookupA_setA_self] at hl
        cases hl
        exact hc
    · rw [hbt_ne t' ht] at hl
      exact h.bucketNe t' bs hl
  · intro t' bs hl n hn
    by_cases ht : t' = node.type
    · subst ht
      by_cases hc : ns.erase node = []
      · rw [if_pos hc, lookupA_eraseA_self _ _ h.typeKeysNodup] at hl
        exact Option.noConfusion hl
      · rw [if_neg hc, lookupA_setA_self] at hl
        cases hl
        exact h.bucketType _ _ hns n (List.mem_of_mem_erase hn)
    · rw [hbt_ne t' ht] at hl
      exact h.bucketType t' bs hl n hn
  · intro t' bs hl
    by_cases ht : t' = node.type
    · subst ht
      by_cases hc : ns.erase node = []
      · rw [if_pos hc, lookupA_eraseA_self _ _ h.typeKeysNodup] at hl
        exact Option.noConfusion hl
      · rw [if_neg hc, lookupA_setA_self] at hl
        cases hl
        exact List.Nodup.sublist (List.Sublist.map _ (List.erase_sublist _ _)) hidsnd
    · rw [hbt_ne t' ht] at hl
      exact h.bucketIdsNodup t' bs hl
  · intro t' bs hl n hn
    by_cases ht : t' = node.type
    · subst ht
      by_cases hc : ns.erase node = []
      · rw [if_pos hc, lookupA_eraseA_self _ _ h.typeKeysNodup] at hl
        exact Option.noConfusion hl
      · rw [if_neg hc, lookupA_setA_self] at hl
        cases hl
        have hn' : n ∈ ns := List.mem_of_mem_erase hn
        have hlive' := h.bucketToId _ _ hns n hn'
        have hne : n ≠ node := ((hnsnd.mem_erase_iff).1 hn).1
        rw [lookupA_eraseA_ne _ _ _ (hid_ne_of_live n hlive' hne)]
        exact hlive'
    · rw [hbt_ne t' ht] at hl
      have hlive' := h.bucketToId t' bs hl n hn
      have hne : n ≠ node := by
        intro he
        subst he
        exact ht (h.bucketType t' bs hl n hn ▸ rfl)
      rw [lookupA_eraseA_ne _ _ _ (hid_ne_of_live n hlive' hne)]
      exact hlive'
  · intro i n hl
    have hine : i ≠ node.id := by
      intro he
      rw [he, lookupA_eraseA_self _ _ h.idKeysNodup] at hl
      exact Option.noConfusion hl
    rw [lookupA_eraseA_ne _ _ _ hine] at hl
    obtain ⟨hi, ns0, hns0, hmem0⟩ := h.idToBucket i n hl
    refine ⟨hi, ?_⟩
    by_cases ht : n.type = node.type
    · have hns0' : ns0 = ns := by
        rw [ht, hns] at hns0
        exact (Option.some_injective _ hns0).symm
      subst hns0'
      have hne : n ≠ node := by
        intro he
        exact hine (hi.trans (he ▸ rfl))
      have hn' : n ∈ ns0.erase node := (List.mem_erase_of_ne hne).2 hmem0
      refine ⟨ns0.erase node, ?_, hn'⟩
      rw [ht, if_neg (List.ne_nil_of_mem hn'), lookupA_setA_self]
    · refine ⟨ns0, ?_, hmem0⟩
      rw [hbt_ne n.type ht]
      exact hns0
  · intro i hi
    exact h.idBound i ((keysA_eraseA_sublist _ _).subset hi)

/-- Ids other than the removed node's are untouched in the id index. -/
theorem unregisterEventNode_byId_ne {st : RegState} (node : IEventNode)
    {i : String} (hi : i ≠ node.id) :
    lookupA (unregisterEventNode st node).byId i = lookupA st.byId i := by
  by_cases hm : ∃ ns, lookupA st.byType node.type = some ns ∧ node ∈ ns
  · obtain ⟨ns, hns, hmem⟩ := hm
    rw [unregisterEventNode_dest hns hmem]
    exact lookupA_eraseA_ne _ _ _ hi
  · rw [unregisterEventNode_not_mem st node (fun ns hns hmem => hm ⟨ns, hns, hmem⟩)]

/-- Removing a live node deletes its id from the id index. -/
theorem unregisterEventNode_byId_self {st : RegState} (h : WF st)
    {node : IEventNode} (hlive : lookupA st.byId node.id = some node) :
    lookupA (unregisterEventNode st node).byId node.id = none := by
  obtain ⟨_, ns, hns, hmem⟩ := h.idToBucket node.id node hlive
  rw [unregisterEventNode_dest hns hmem]
  exact lookupA_eraseA_self _ _ h.idKeysNodup

/-- The removed node's bucket, viewed through `getEventNodes`, loses its
first occurrence of the node. -/
theorem unregisterEventNode_getEventNodes_self {st : RegState} (h : WF st)
    (node : IEventNode) :
    getEventNodes (unregisterEventNode st node) node.type =
      (getEventNodes st node.type).erase node := by
  by_cases hm : ∃ ns, lookupA st.byType node.type = some ns ∧ node ∈ ns
  · obtain ⟨ns, hns, hmem⟩ := hm
    rw [unregisterEventNode_dest hns hmem]
    unfold getEventNodes
    show (lookupA (if ns.erase node = [] then eraseA st.byType node.type
        else setA st.byType node.type (ns.erase node)) node.type).getD [] =
      ((lookupA st.byType node.type).getD []).erase node
    by_cases hc : ns.erase node = []
    · rw [if_pos hc, lookupA_eraseA_self _ _ h.typeKeysNodup, hns]
      simp [hc]
    · rw [if_neg hc, lookupA_setA_self, hns]
      simp
  · rw [unregisterEventNode_not_mem st node (fun ns hns hmem => hm ⟨ns, hns, hmem⟩)]
    unfold getEventNodes
    rcases hns : lookupA st.byType node.type with _ | ns
    · rfl
    · have hnm : node ∉ ns := fun hmem => hm ⟨ns, hns, hmem⟩
      simp only [Option.getD_some]
      rw [List.erase_of_not_mem hnm]

/-- Buckets of other types are untouched. -/
theorem unregisterEventNode_byType_ne {st : RegState} (node : IEventNode)
    {t : Nat} (ht : t ≠ node.type) :
    lookupA (unregisterEventNode st node).byType t = lookupA st.byType t := by
  by_cases hm : ∃ ns, lookupA st.byType node.type = some ns ∧ node ∈ ns
  · obtain ⟨ns, hns, hmem⟩ := hm
    rw [unregisterEventNode_dest hns hmem]
    show lookupA (if ns.erase node = [] then eraseA st.byType node.type
      else setA st.byType node.type (ns.erase node)) t = _
    split
    · exact lookupA_eraseA_ne _ _ _ ht
    · exact lookupA_setA_ne _ _ _ _ ht
  · rw [unregisterEventNode_not_mem st node (fun ns hns hmem => hm ⟨ns, hns, hmem⟩)]

/-!
## `_offById`, `_off`, `offAll`
-/

theorem offById_WF {st : RegState} (h : WF st) (i : String) : WF (offById st i) := by
  unfold offById
  rcases hl : lookupA st.byId i with _ | node
  · simp only [hl]
    exact h
  · simp only [hl]
    exact unregisterEventNode_WF h node

theorem offById_absent {st : RegState} {i : String}
    (hl : lookupA st.byId i = none) : offById st i = st := by
  unfold offById
  simp only [hl]

theorem offById_idCounter (st : RegState) (i : String) :
    (offById st i).idCounter = st.idCounter := by
  unfold offById
  rcases hl : lookupA st.byId i with _ | node
  · simp only [hl]
  · simp only [hl, unregisterEventNode_idCounter]

theorem offTL_WF {st : RegState} (h : WF st) (t : Nat) (l : Listener)
    (tg : JSVal) : WF (offTL st t l tg) := by
  unfold offTL
  rcases hb : lookupA st.byType t with _ | ns
  · simp only [hb]
    exact h
  · simp only [hb]
    rcases hf : ns.find? (fun n => n.listener = l ∧ n.target = tg) with _ | node
    · simp only [hf]
      exact h
    · simp only [hf]
      exact unregisterEventNode_WF h node

theorem offTL_idCounter (st : RegState) (t : Nat) (l : Listener) (tg : JSVal) :
    (offTL st t l tg).idCounter = st.idCounter := by
  unfold offTL
  rcases hb : lookupA st.byType t with _ | ns
  · simp only [hb]
  · simp only [hb]
    rcases hf : ns.find? (fun n => n.listener = l ∧ n.target = tg) with _ | node
    · simp only [hf]
    · simp only [hf, unregisterEventNode_idCounter]

theorem lookupA_foldl_eraseA_of_none {β : Type _} (ns : List IEventNode)
    (m : List (String × β)) (k : String) (hk : lookupA m k = none) :
    lookupA (ns.foldl (fun m n => eraseA m n.id) m) k = none := by
  induction ns generalizing m with
  | nil => exact hk
  | cons n ns ih => exact ih _ (lookupA_eraseA_none _ hk)

theorem keysA_foldl_eraseA_sublist {β : Type _} (ns : List IEventNode)
    (m : List (String × β)) :
    List.Sublist (keysA (ns.foldl (fun m n => eraseA m n.id) m)) (keysA m) := by
  induction ns generalizing m with
  | nil => exact List.Sublist.refl _
  | cons n ns ih => exact (ih _).trans (keysA_eraseA_sublist _ _)

theorem keysA_foldl_eraseA_nodup {β : Type _} (ns : List IEventNode)
    (m : List (String × β)) (h : (keysA m).Nodup) :
    (keysA (ns.foldl (fun m n => eraseA m n.id) m)).Nodup :=
  (keysA_foldl_eraseA_sublist ns m).nodup h

theorem lookupA_foldl_eraseA_mem {β : Type _} (ns : List IEventNode)
    (m : List (String × β)) (k : String) (hnd : (keysA m).Nodup)
    (hk : k ∈ ns.map IEventNode.id) :
    lookupA (ns.foldl (fun m n => eraseA m n.id) m) k = none := by
  induction ns generalizing m with
  | nil => simp at hk
  | cons n ns ih =>
    simp only [List.map_cons, List.mem_cons] at hk
    rcases hk with hk | hk
    · subst hk
      exact lookupA_foldl_eraseA_of_none ns _ _ (lookupA_eraseA_self _ _ hnd)
    · exact ih _ (keysA_nodup_eraseA _ _ hnd) hk

theorem lookupA_foldl_eraseA_not_mem {β : Type _} (ns : List IEventNode)
    (m : List (String × β)) (k : String) (hk : k ∉ ns.map IEventNode.id) :
    lookupA (ns.foldl (fun m n => eraseA m n.id) m) k = lookupA m k := by
  induction ns generalizing m with
  | nil => rfl
  | cons n ns ih =>
    simp only [List.map_cons, List.mem_cons, not_or] at hk
    rw [List.foldl_cons, ih _ hk.2, lookupA_eraseA_ne _ _ _ hk.1]

theorem offAll_some_dest {st : RegState} {t : Nat} {ns : List IEventNode}
    (hns : lookupA st.byType t = some ns) :
    offAll st (some t) =
      { st with
        byType := eraseA st.byType t,
        byId := ns.foldl (fun m n => eraseA m n.id) st.byId } := by
  unfold offAll
  simp only [hns]

theorem offAll_some_absent {st : RegState} {t : Nat}
    (hns : lookupA st.byType t = none) : offAll st (some t) = st := by
  unfold offAll
  simp only [hns]

theorem offAll_idCounter (st : RegState) (t : Option Nat) :
    (offAll st t).idCounter = st.idCounter := by
  rcases t with _ | t
  · rfl
  · rcases hns : lookupA st.byType t with _ | ns
    · rw [offAll_some_absent hns]
    · rw [offAll_some_dest hns]

theorem offAll_WF {st : RegState} (h : WF st) (t : Option Nat) :
    WF (offAll st t) := by
  rcases t with _ | t
  · exact ⟨by simp [offAll, keysA], by simp [offAll, keysA],
      by simp [offAll], by simp [offAll], by simp [offAll], by simp [offAll],
      by simp [offAll], by simp [offAll, keysA]⟩
  rcases hns : lookupA st.byType t with _ | ns
  · rw [offAll_some_absent hns]
    exact h
  rw [offAll_some_dest hns]
  have hid_of_type : ∀ n : IEventNode, lookupA st.byId n.id = some n →
      n.id ∈ ns.map IEventNode.id → n.type = t := by
    intro n hlive hmem
    simp only [List.mem_map] at hmem
    obtain ⟨n', hn', he⟩ := hmem
    have hlive' := h.bucketToId _ _ hns n' hn'
    rw [he, hlive] at hlive'
    have heq : n = n' := Option.some_injective _ hlive'
    subst heq
    exact h.bucketType _ _ hns _ hn'
  constructor
  · exact keysA_nodup_eraseA _ _ h.typeKeysNodup
  · exact keysA_foldl_eraseA_nodup _ _ h.idKeysNodup
  · intro t' bs hl
    by_cases ht : t' = t
    · subst ht
      rw [lookupA_eraseA_self _ _ h.typeKeysNodup] at hl
      exact Option.noConfusion hl
    · rw [lookupA_eraseA_ne _ _ _ ht] at hl
      exact h.bucketNe t' bs hl
  · intro t' bs hl n hn
    by_cases ht : t' = t
    · subst ht
      rw [lookupA_eraseA_self _ _ h.typeKeysNodup] at hl
      exact Option.noConfusion hl
    · rw [lookupA_eraseA_ne _ _ _ ht] at hl
      exact h.bucketType t' bs hl n hn
  · intro t' bs hl
    by_cases ht : t' = t
    · subst ht
      rw [lookupA_eraseA_self _ _ h.typeKeysNodup] at hl
      exact Option.noConfusion hl
    · rw [lookupA_eraseA_ne _ _ _ ht] at hl
      exact h.bucketIdsNodup t' bs hl
  · intro t' bs hl n hn
    by_cases ht : t' = t
    · subst ht
      rw [lookupA_eraseA_self _ _ h.typeKeysNodup] at hl
      exact Option.noConfusion hl
    · rw [lookupA_eraseA_ne _ _ _ ht] at hl
      have hlive := h.bucketToId t' bs hl n hn
      have hnm : n.id ∉ ns.map IEventNode.id := by
        intro hmem
        exact ht ((h.bucketType t' bs hl n hn).symm.trans
          (hid_of_type n hlive hmem))
      rw [lookupA_foldl_eraseA_not_mem _ _ _ hnm]
      exact hlive
  · intro i n hl
    have hnm : i ∉ ns.map IEventNode.id := by
      intro hmem
      rw [lookupA_foldl_eraseA_mem _ _ _ h.idKeysNodup hmem] at hl
      exact Option.noConfusion hl
    rw [lookupA_foldl_eraseA_not_mem _ _ _ hnm] at hl
    obtain ⟨hi, ns0, hns0, hmem0⟩ := h.idToBucket i n hl
    refine ⟨hi, ns0, ?_, hmem0⟩
    have ht : n.type ≠ t := by
      intro he
      rw [he, hns] at hns0
      cases hns0
      exact hnm (hi ▸ List.mem_map_of_mem _ hmem0)
    rw [lookupA_eraseA_ne _ _ _ ht]
    exact hns0
  · intro i hi
    exact h.idBound i ((keysA_foldl_eraseA_sublist _ _).subset hi)

/-!
## `emit`: listener bodies, the snapshot loop, and its invariants
-/

theorem on_idCounter (st : RegState) (t : Nat) (l : Listener) (tg : JSVal)
    (o : Option IEventOptions) :
    («on» st t l tg o).1.idCounter = st.idCounter + 1 := rfl

theorem applyBeh_WF {st : RegState} (h : WF st) (b : Beh) :
    WF (applyBeh st b).1 := by
  cases b with
  | inert => exact h
  | doOn t lcode lbeh tg o => exact on_WF st t ⟨lcode, lbeh⟩ tg o h
  | doOffTL t lcode lbeh tg => exact offTL_WF h t ⟨lcode, lbeh⟩ tg
  | doOffAll t => exact offAll_WF h t
  | doOffById i => exact offById_WF h i
  | raiseErr => exact h

theorem applyBeh_counter_mono (st : RegState) (b : Beh) :
    st.idCounter ≤ (applyBeh st b).1.idCounter := by
  cases b with
  | inert => exact Nat.le_refl _
  | doOn t lcode lbeh tg o => exact Nat.le_succ _
  | doOffTL t lcode lbeh tg => exact Nat.le_of_eq (offTL_idCounter st t _ tg).symm
  | doOffAll t => exact Nat.le_of_eq (offAll_idCounter st t).symm
  | doOffById i => exact Nat.le_of_eq (offById_idCounter st i).symm
  | raiseErr => exact Nat.le_refl _

theorem unregisterEventNode_byId_none {st : RegState} (node : IEventNode)
    {i : String} (hi : lookupA st.byId i = none) :
    lookupA (unregisterEventNode st node).byId i = none := by
  by_cases hm : ∃ ns, lookupA st.byType node.type = some ns ∧ node ∈ ns
  · obtain ⟨ns, hns, hmem⟩ := hm
    rw [unregisterEventNode_dest hns hmem]
    exact lookupA_eraseA_none _ hi
  · rw [unregisterEventNode_not_mem st node (fun ns hns hmem => hm ⟨ns, hns, hmem⟩)]
    exact hi

theorem offById_byId_none {st : RegState} (j : String) {i : String}
    (hi : lookupA st.byId i = none) :
    lookupA (offById st j).byId i = none := by
  unfold offById
  rcases hl : lookupA st.byId j with _ | node
  · simp only [hl]
    exact hi
  · simp only [hl]
    exact unregisterEventNode_byId_none node hi

theorem offTL_byId_none {st : RegState} (t : Nat) (l : Listener) (tg : JSVal)
    {i : String} (hi : lookupA st.byId i = none) :
    lookupA (offTL st t l tg).byId i = none := by
  unfold offTL
  rcases hb : lookupA st.byType t with _ | ns
  · simp only [hb]
    exact hi
  · simp only [hb]
    rcases hf : ns.find? (fun n => n.listener = l ∧ n.target = tg) with _ | node
    · simp only [hf]
      exact hi
    · simp only [hf]
      exact unregisterEventNode_byId_none node hi

theorem offAll_byId_none {st : RegState} (t : Option Nat) {i : String}
    (hi : lookupA st.byId i = none) :
    lookupA (offAll st t).byId i = none := by
  rcases t with _ | t
  · rfl
  · rcases hns : lookupA st.byType t with _ | ns
    · rw [offAll_some_absent hns]
      exact hi
    · rw [offAll_some_dest hns]
      exact lookupA_foldl_eraseA_of_none _ _ _ hi

theorem on_byId_ne {st : RegState} (t : Nat) (l : Listener) (tg : JSVal)
    (o : Option IEventOptions) {i : String} (hi : i ≠ Nat.repr st.idCounter) :
    lookupA («on» st t l tg o).1.byId i = lookupA st.byId i := by
  rw [on_dest]
  exact lookupA_setA_ne _ _ _ _ hi

/-- Running a listener body cannot resurrect an id issued before the body
ran: an absent id whose counter value is already spent stays absent. -/
theorem applyBeh_byId_none_bounded {st : RegState} (b : Beh) {k : Nat}
    (hk : k < st.idCounter) (hi : lookupA st.byId (Nat.repr k) = none) :
    lookupA (applyBeh st b).1.byId (Nat.repr k) = none := by
  cases b with
  | inert => exact hi
  | doOn t lcode lbeh tg o =>
    show lookupA («on» st t ⟨lcode, lbeh⟩ tg o).1.byId (Nat.repr k) = none
    rw [on_byId_ne t _ tg o (fun he => absurd (natRepr_injective he) (Nat.ne_of_lt hk))]
    exact hi
  | doOffTL t lcode lbeh tg => exact offTL_byId_none t _ tg hi
  | doOffAll t => exact offAll_byId_none t hi
  | doOffById i => exact offById_byId_none i hi
  | raiseErr => exact hi

theorem emitLoop_nil (st : RegState) (args : List JSVal) :
    emitLoop st [] args = (st, [], false) := rfl

theorem emitLoop_cons (st : RegState) (node : IEventNode)
    (rest : List IEventNode) (args : List JSVal) :
    emitLoop st (node :: rest) args =
      if lookupA st.byId node.id = none then emitLoop st rest args
      else
        let st1 := if node.onceFlag then unregisterEventNode st node else st
        let c : Call :=
          ⟨node.id, node.listener.code,
            if node.target.truthy then some node.target else none, args, st1⟩
        let r := applyBeh st1 node.listener.beh
        if r.2 then (r.1, [c], true)
        else
          let r2 := emitLoop r.1 rest args
          (r2.1, c :: r2.2.1, r2.2.2) := rfl

theorem emitLoop_skip_all {st : RegState} {ns : List IEventNode}
    (args : List JSVal) (h : ∀ n ∈ ns, lookupA st.byId n.id = none) :
    emitLoop st ns args = (st, [], false) := by
  induction ns with
  | nil => rfl
  | cons node rest ih =>
    rw [emitLoop_cons, if_pos (h node (by simp))]
    exact ih (fun n hn => h n (by simp [hn]))

theorem emitLoop_WF {ns : List IEventNode} :
    ∀ {st : RegState}, WF st → ∀ args, WF (emitLoop st ns args).1 := by
  induction ns with
  | nil => intro st h args; exact h
  | cons node rest ih =>
    intro st h args
    rw [emitLoop_cons]
    by_cases hl : lookupA st.byId node.id = none
    · rw [if_pos hl]
      exact ih h args
    · rw [if_neg hl]
      have h1 : WF (if node.onceFlag then unregisterEventNode st node else st) := by
        split
        · exact unregisterEventNode_WF h node
        · exact h
      rcases hr : (applyBeh (if node.onceFlag then unregisterEventNode st node
          else st) node.listener.beh).2 with _ | _
      · simp only [hr, if_false, Bool.false_eq_true]
        exact ih (applyBeh_WF h1 _) args
      · simp only [hr, if_true]
        exact applyBeh_WF h1 _

theorem emitLoop_counter_mono {ns : List IEventNode} :
    ∀ (st : RegState) (args : List JSVal),
      st.idCounter ≤ (emitLoop st ns args).1.idCounter := by
  induction ns with
  | nil => intro st args; exact Nat.le_refl _
  | cons node rest ih =>
    intro st args
    rw [emitLoop_cons]
    by_cases hl : lookupA st.byId node.id = none
    · rw [if_pos hl]
      exact ih st args
    · rw [if_neg hl]
      have h1 : st.idCounter ≤
          (if node.onceFlag then unregisterEventNode st node else st).idCounter := by
        split
        · exact Nat.le_of_eq (unregisterEventNode_idCounter st node).symm
        · exact Nat.le_refl _
      have h2 := applyBeh_counter_mono
        (if node.onceFlag then unregisterEventNode st node else st) node.listener.beh
      rcases hr : (applyBeh (if node.onceFlag then unregisterEventNode st node
          else st) node.listener.beh).2 with _ | _
      · simp only [hr, if_false, Bool.false_eq_true]
        exact le_trans (le_trans h1 h2) (ih _ args)
      · simp only [hr, if_true]
        exact le_trans h1 h2

theorem emitLoop_trace_nids {ns : List IEventNode} :
    ∀ (st : RegState) (args : List JSVal) (c : Call),
      c ∈ (emitLoop st ns args).2.1 → c.nid ∈ ns.map IEventNode.id := by
  induction ns with
  | nil => intro st args c hc; simp [emitLoop_nil] at hc
  | cons node rest ih =>
    intro st args c hc
    rw [emitLoop_cons] at hc
    by_cases hl : lookupA st.byId node.id = none
    · rw [if_pos hl] at hc
      exact List.mem_cons_of_mem _ (ih st args c hc)
    · rw [if_neg hl] at hc
      rcases hr : (applyBeh (if node.onceFlag then unregisterEventNode st node
          else st) node.listener.beh).2 with _ | _
      · simp only [hr, if_false, Bool.false_eq_true] at hc
        rcases List.mem_cons.1 hc with hc | hc
        · rw [hc]
          simp
        · exact List.mem_cons_of_mem _ (ih _ args c hc)
      · simp only [hr, if_true] at hc
        rcases List.mem_cons.1 hc with hc | hc
        · rw [hc]
          simp
        · simp at hc

theorem emitLoop_byId_none_bounded {ns : List IEventNode} :
    ∀ {st : RegState} (args : List JSVal) {k : Nat}, WF st → k < st.idCounter →
      lookupA st.byId (Nat.repr k) = none →
      lookupA (emitLoop st ns args).1.byId (Nat.repr k) = none := by
  induction ns with
  | nil => intro st args k _ _ hi; exact hi
  | cons node rest ih =>
    intro st args k hwf hk hi
    rw [emitLoop_cons]
    by_cases hl : lookupA st.byId node.id = none
    · rw [if_pos hl]
      exact ih args hwf hk hi
    · rw [if_neg hl]
      set st1 := if node.onceFlag then unregisterEventNode st node else st with hst1
      have h1wf : WF st1 := by
        rw [hst1]
        split
        · exact unregisterEventNode_WF hwf node
        · exact hwf
      have h1k : k < st1.idCounter := by
        rw [hst1]
        split
        · rw [unregisterEventNode_idCounter]
          exact hk
        · exact hk
      have h1i : lookupA st1.byId (Nat.repr k) = none := by
        rw [hst1]
        split
        · exact unregisterEventNode_byId_none node hi
        · exact hi
      have h2i : lookupA (applyBeh st1 node.listener.beh).1.byId (Nat.repr k) = none :=
        applyBeh_byId_none_bounded _ h1k h1i
      have h2k : k < (applyBeh st1 node.listener.beh).1.idCounter :=
        lt_of_lt_of_le h1k (applyBeh_counter_mono st1 node.listener.beh)
      have h2wf : WF (applyBeh st1 node.listener.beh).1 := applyBeh_WF h1wf _
      rcases hr : (applyBeh st1 node.listener.beh).2 with _ | _
      · simp only [hr, if_false, Bool.false_eq_true]
        exact ih args h2wf h2k h2i
      · simp only [hr, if_true]
        exact h2i

theorem processOnce_nil (st : RegState) : processOnce st [] = st := rfl

theorem processOnce_cons (st : RegState) (n : IEventNode) (ns : List IEventNode) :
    processOnce st (n :: ns) =
      processOnce (if n.onceFlag then unregisterEventNode st n else st) ns := rfl

theorem processOnce_WF {ns : List IEventNode} :
    ∀ {st : RegState}, WF st → WF (processOnce st ns) := by
  induction ns with
  | nil => intro st h; exact h
  | cons n ns ih =>
    intro st h
    rw [processOnce_cons]
    refine ih ?_
    split
    · exact unregisterEventNode_WF h n
    · exact h

theorem processOnce_byId_not_mem {ns : List IEventNode} :
    ∀ (st : RegState) {i : String}, i ∉ ns.map IEventNode.id →
      lookupA (processOnce st ns).byId i = lookupA st.byId i := by
  induction ns with
  | nil => intro st i _; rfl
  | cons n ns ih =>
    intro st i hi
    simp only [List.map_cons, List.mem_cons, not_or] at hi
    rw [processOnce_cons, ih _ hi.2]
    split
    · exact unregisterEventNode_byId_ne n hi.1
    · rfl

theorem processOnce_idCounter {ns : List IEventNode} :
    ∀ (st : RegState), (processOnce st ns).idCounter = st.idCounter := by
  induction ns with
  | nil => intro st; rfl
  | cons n ns ih =>
    intro st
    rw [processOnce_cons, ih]
    split
    · exact unregisterEventNode_idCounter st n
    · rfl

/-- A live snapshot node is processed: skipping does not happen, the
`once` flag is honoured before the body runs, and the invocation is
recorded before the rest of the snapshot is handled. -/
theorem emitLoop_cons_live {st : RegState} {node : IEventNode}
    (rest : List IEventNode) (args : List JSVal)
    (hl : ¬lookupA st.byId node.id = none) :
    emitLoop st (node :: rest) args =
      (if (applyBeh (if node.onceFlag then unregisterEventNode st node else st)
            node.listener.beh).2 then
        ((applyBeh (if node.onceFlag then unregisterEventNode st node else st)
            node.listener.beh).1,
          [⟨node.id, node.listener.code,
            if node.target.truthy then some node.target else none, args,
            if node.onceFlag then unregisterEventNode st node else st⟩], true)
      else
        ((emitLoop (applyBeh (if node.onceFlag then unregisterEventNode st node
            else st) node.listener.beh).1 rest args).1,
          (⟨node.id, node.listener.code,
            if node.target.truthy then some node.target else none, args,
            if node.onceFlag then unregisterEventNode st node else st⟩ : Call) ::
            (emitLoop (applyBeh (if node.onceFlag then unregisterEventNode st node
              else st) node.listener.beh).1 rest args).2.1,
          (emitLoop (applyBeh (if node.onceFlag then unregisterEventNode st node
            else st) node.listener.beh).1 rest args).2.2)) := by
  rw [emitLoop_cons, if_neg hl]

/-- Iterating an inert run of the snapshot: every node fires in order with
the emit's arguments, `once` nodes drop out of the indexes, and the loop
carries on into the remainder from the accumulated state. -/
theorem emitLoop_inert_append (pre : List IEventNode) :
    ∀ (st : RegState) (rest : List IEventNode) (args : List JSVal), WF st →
      (∀ n ∈ pre, n.listener.beh = Beh.inert) →
      (∀ n ∈ pre, lookupA st.byId n.id = some n) →
      (pre.map IEventNode.id).Nodup →
      (emitLoop st (pre ++ rest) args).1 =
          (emitLoop (processOnce st pre) rest args).1 ∧
        (emitLoop st (pre ++ rest) args).2.1.map Call.view =
          pre.map (nodeView args) ++
            (emitLoop (processOnce st pre) rest args).2.1.map Call.view ∧
        (emitLoop st (pre ++ rest) args).2.2 =
          (emitLoop (processOnce st pre) rest args).2.2 ∧
        ∃ tr0, (emitLoop st (pre ++ rest) args).2.1 =
            tr0 ++ (emitLoop (processOnce st pre) rest args).2.1 ∧
          ∀ c ∈ tr0, c.nid ∈ pre.map IEventNode.id := by
  induction pre with
  | nil =>
    intro st rest args _ _ _ _
    exact ⟨rfl, rfl, rfl, [], rfl, by simp⟩
  | cons n pre ih =>
    intro st rest args hwf hinert hlive hnd
    have hlv : lookupA st.byId n.id = some n := hlive n (by simp)
    rw [List.cons_append,
      emitLoop_cons_live (pre ++ rest) args (by simp [hlv])]
    rw [hinert n (by simp)]
    set st1 := if n.onceFlag then unregisterEventNode st n else st with hst1
    have happ : applyBeh st1 Beh.inert = (st1, false) := rfl
    rw [happ]
    simp only [if_false, Bool.false_eq_true]
    have h1wf : WF st1 := by
      rw [hst1]
      split
      · exact unregisterEventNode_WF hwf n
      · exact hwf
    simp only [List.map_cons, List.nodup_cons] at hnd
    have h1live : ∀ m ∈ pre, lookupA st1.byId m.id = some m := by
      intro m hm
      have hne : m.id ≠ n.id := fun he => hnd.1 (he ▸ List.mem_map_of_mem _ hm)
      rw [hst1]
      split
      · rw [unregisterEventNode_byId_ne n hne]
        exact hlive m (by simp [hm])
      · exact hlive m (by simp [hm])
    have hpo : processOnce st (n :: pre) = processOnce st1 pre := rfl
    obtain ⟨he1, he2, he3, tr0, htr0, htr0m⟩ :=
      ih st1 rest args h1wf
        (fun m hm => hinert m (by simp [hm])) h1live hnd.2
    refine ⟨by rw [← hpo] at he1; exact he1, ?_, by rw [← hpo] at he3; exact he3, ?_⟩
    · rw [List.map_cons]
      rw [← hpo] at he2
      rw [he2]
      rfl
    · refine ⟨(⟨n.id, n.listener.code,
        if n.target.truthy then some n.target else none, args, st1⟩ : Call) :: tr0,
        ?_, ?_⟩
      · rw [← hpo] at htr0
        simp only [List.cons_append, List.cons.injEq, true_and]
        exact htr0
      · intro c hc
        rcases List.mem_cons.1 hc with hc | hc
        · rw [hc]
          simp
        · exact List.mem_cons_of_mem _ (htr0m c hc)

/-!
## `emit`, `step`, `run`
-/

theorem emit_absent {st : RegState} {t : Nat} (args : List JSVal)
    (hns : lookupA st.byType t = none) : emit st t args = (st, [], false) := by
  unfold emit
  simp only [hns]

theorem emit_dest {st : RegState} {t : Nat} {ns : List IEventNode}
    (args : List JSVal) (hns : lookupA st.byType t = some ns) (hne : ns ≠ []) :
    emit st t args = emitLoop st ns args := by
  unfold emit
  simp only [hns, List.length_eq_zero, if_neg hne]

theorem emit_WF {st : RegState} (h : WF st) (t : Nat) (args : List JSVal) :
    WF (emit st t args).1 := by
  rcases hns : lookupA st.byType t with _ | ns
  · rw [emit_absent args hns]
    exact h
  · have hne : ns ≠ [] := h.bucketNe t ns hns
    rw [emit_dest args hns hne]
    exact emitLoop_WF h args

theorem emit_counter_mono (st : RegState) (t : Nat) (args : List JSVal) :
    st.idCounter ≤ (emit st t args).1.idCounter := by
  unfold emit
  rcases hns : lookupA st.byType t with _ | ns
  · exact Nat.le_refl _
  · simp only
    split
    · exact Nat.le_refl _
    · exact emitLoop_counter_mono st args

theorem step_WF {st : RegState} (h : WF st) (op : Op) : WF (step st op) := by
  cases op with
  | opOn t l tg o => exact on_WF st t l tg o h
  | opOnce t l tg o => exact once_WF st t l tg o h
  | opOffTL t l tg => exact offTL_WF h t l tg
  | opOffById i => exact offById_WF h i
  | opOffAll t => exact offAll_WF h t
  | opEmit t d => exact emit_WF h t d

theorem step_counter_mono (st : RegState) (op : Op) :
    st.idCounter ≤ (step st op).idCounter := by
  cases op with
  | opOn t l tg o => exact Nat.le_succ _
  | opOnce t l tg o => exact Nat.le_succ _
  | opOffTL t l tg => exact Nat.le_of_eq (offTL_idCounter st t l tg).symm
  | opOffById i => exact Nat.le_of_eq (offById_idCounter st i).symm
  | opOffAll t => exact Nat.le_of_eq (offAll_idCounter st t).symm
  | opEmit t d => exact emit_counter_mono st t d

theorem foldl_step_WF (ops : List Op) :
    ∀ {st : RegState}, WF st → WF (ops.foldl step st) := by
  induction ops with
  | nil => intro st h; exact h
  | cons op rest ih => intro st h; exact ih (step_WF h op)

/-- Every state reachable from a fresh instance is well-formed. -/
theorem run_WF (ops : List Op) : WF (run ops) :=
  foldl_step_WF ops WF_initState

theorem stepAssigned_fst (st : RegState) (op : Op) :
    (stepAssigned st op).1 = step st op := by
  cases op <;> rfl

theorem on_snd (st : RegState) (t : Nat) (l : Listener) (tg : JSVal)
    (o : Option IEventOptions) : («on» st t l tg o).2 = Nat.repr st.idCounter := rfl

theorem once_snd (st : RegState) (t : Nat) (l : Listener) (tg : JSVal)
    (o : Option IEventOptions) : (once st t l tg o).2 = Nat.repr st.idCounter := rfl

theorem assignedIdsFrom_bounded :
    ∀ (ops : List Op) (st : RegState) (i : String),
      i ∈ assignedIdsFrom st ops → ∃ k, st.idCounter ≤ k ∧ i = Nat.repr k := by
  intro ops
  induction ops with
  | nil => intro st i hi; simp [assignedIdsFrom] at hi
  | cons op rest ih =>
    intro st i hi
    rw [assignedIdsFrom] at hi
    rcases List.mem_append.1 hi with hi | hi
    · cases op with
      | opOn t l tg o =>
        simp only [stepAssigned, List.mem_singleton] at hi
        exact ⟨st.idCounter, Nat.le_refl _, hi⟩
      | opOnce t l tg o =>
        simp only [stepAssigned, List.mem_singleton] at hi
        exact ⟨st.idCounter, Nat.le_refl _, hi⟩
      | opOffTL t l tg => simp [stepAssigned] at hi
      | opOffById j => simp [stepAssigned] at hi
      | opOffAll t => simp [stepAssigned] at hi
      | opEmit t d => simp [stepAssigned] at hi
    · obtain ⟨k, hk, he⟩ := ih (stepAssigned st op).1 i hi
      refine ⟨k, le_trans ?_ hk, he⟩
      rw [stepAssigned_fst]
      exact step_counter_mono st op

theorem assignedIdsFrom_nodup :
    ∀ (ops : List Op) (st : RegState), (assignedIdsFrom st ops).Nodup := by
  intro ops
  induction ops with
  | nil => intro st; simp [assignedIdsFrom]
  | cons op rest ih =>
    intro st
    rw [assignedIdsFrom]
    refine List.Nodup.append ?_ (ih _) ?_
    · cases op <;> simp [stepAssigned]
    · intro i hi hi'
      obtain ⟨k, hk, he⟩ := assignedIdsFrom_bounded rest _ i hi'
      cases op with
      | opOn t l tg o =>
        simp only [stepAssigned, on_snd, List.mem_singleton] at hi
        rw [stepAssigned_fst] at hk
        have : st.idCounter = k := natRepr_injective (hi ▸ he)
        rw [← this] at hk
        simp only [step, on_idCounter] at hk
        omega
      | opOnce t l tg o =>
        simp only [stepAssigned, once_snd, List.mem_singleton] at hi
        rw [stepAssigned_fst] at hk
        have : st.idCounter = k := natRepr_injective (hi ▸ he)
        rw [← this] at hk
        simp only [step, once, on_idCounter] at hk
        omega
      | opOffTL t l tg => simp [stepAssigned] at hi
      | opOffById j => simp [stepAssigned] at hi
      | opOffAll t => simp [stepAssigned] at hi
      | opEmit t d => simp [stepAssigned] at hi

/-!
## Helper characterizations used by the claim theorems
-/

theorem getEventNodes_on_self (st : RegState) (t : Nat) (l : Listener)
    (tg : JSVal) (o : Option IEventOptions) :
    getEventNodes («on» st t l tg o).1 t =
      getEventNodes st t ++ [⟨Nat.repr st.idCounter, t, l, tg, o⟩] := by
  rw [on_dest]
  unfold getEventNodes
  rw [registerEventNode_byType, lookupA_setA_self]
  rfl

theorem getEventNodes_on_ne (st : RegState) (t : Nat) (l : Listener)
    (tg : JSVal) (o : Option IEventOptions) {u : Nat} (hu : u ≠ t) :
    getEventNodes («on» st t l tg o).1 u = getEventNodes st u := by
  rw [on_dest]
  unfold getEventNodes
  rw [registerEventNode_byType, lookupA_setA_ne _ _ _ _ hu]

theorem on_byId_self (st : RegState) (t : Nat) (l : Listener) (tg : JSVal)
    (o : Option IEventOptions) :
    lookupA («on» st t l tg o).1.byId (Nat.repr st.idCounter) =
      some ⟨Nat.repr st.idCounter, t, l, tg, o⟩ := by
  rw [on_dest, registerEventNode_byId]
  exact lookupA_setA_self _ _ _

theorem once_def (st : RegState) (t : Nat) (l : Listener) (tg : JSVal)
    (o : Option IEventOptions) :
    once st t l tg o = «on» st t l tg (some ⟨some true⟩) := rfl

theorem WF.getEventNodes_live {st : RegState} (h : WF st) (t : Nat) :
    ∀ n ∈ getEventNodes st t, lookupA st.byId n.id = some n := by
  intro n hn
  unfold getEventNodes at hn
  rcases hns : lookupA st.byType t with _ | ns
  · rw [hns] at hn
    simp at hn
  · rw [hns] at hn
    exact h.bucketToId t ns hns n hn

theorem WF.getEventNodes_type {st : RegState} (h : WF st) (t : Nat) :
    ∀ n ∈ getEventNodes st t, n.type = t := by
  intro n hn
  unfold getEventNodes at hn
  rcases hns : lookupA st.byType t with _ | ns
  · rw [hns] at hn
    simp at hn
  · rw [hns] at hn
    exact h.bucketType t ns hns n hn

theorem WF.getEventNodes_ids_nodup {st : RegState} (h : WF st) (t : Nat) :
    ((getEventNodes st t).map IEventNode.id).Nodup := by
  unfold getEventNodes
  rcases hns : lookupA st.byType t with _ | ns
  · simp
  · exact h.bucketIdsNodup t ns hns

theorem WF.getEventNodes_id_bound {st : RegState} (h : WF st) (t : Nat) :
    ∀ n ∈ getEventNodes st t, ∃ k, k < st.idCounter ∧ n.id = Nat.repr k := by
  intro n hn
  exact h.live_id_bound (h.getEventNodes_live t n hn)

/-- Every call an `emit` makes carries the id of a subscription that was
live when the emit began. -/
theorem emit_trace_live {st : RegState} (h : WF st) (t : Nat)
    (args : List JSVal) :
    ∀ c ∈ (emit st t args).2.1, lookupA st.byId c.nid ≠ none := by
  intro c hc
  rcases hns : lookupA st.byType t with _ | ns
  · rw [emit_absent args hns] at hc
    simp at hc
  · have hne : ns ≠ [] := h.bucketNe t ns hns
    rw [emit_dest args hns hne] at hc
    have := emitLoop_trace_nids st args c hc
    simp only [List.mem_map] at this
    obtain ⟨n, hn, he⟩ := this
    rw [← he, h.bucketToId t ns hns n hn]
    exact fun hx => Option.noConfusion hx

/-- `offAll(t)` removes every live subscription of type `t` from the id
index. -/
theorem offAll_byId_live_type {st : RegState} (h : WF st) {n : IEventNode}
    (hlive : lookupA st.byId n.id = some n) {t : Nat} (ht : n.type = t) :
    lookupA (offAll st (some t)).byId n.id = none := by
  obtain ⟨_, ns, hns, hmem⟩ := h.idToBucket n.id n hlive
  rw [ht] at hns
  rw [offAll_some_dest hns]
  exact lookupA_foldl_eraseA_mem _ _ _ h.idKeysNodup
    (List.mem_map_of_mem _ hmem)

theorem getEventNodes_some {st : RegState} {t : Nat} {ns : List IEventNode}
    (h : getEventNodes st t = ns) (hne : ns ≠ []) :
    lookupA st.byType t = some ns := by
  unfold getEventNodes at h
  by_cases hl : lookupA st.byType t = none
  · rw [hl] at h
    exact absurd (h.symm.trans (by rfl)) hne
  · rcases Option.ne_none_iff_exists.1 hl with ⟨ms, hms⟩
    rw [← hms] at h
    rw [show (some ms).getD [] = ms from rfl] at h
    rw [← hms, h]

theorem find_first {α : Type _} {p : α → Bool} (a : List α) (nd : α)
    (b : List α) (ha : ∀ m ∈ a, ¬p m = true) (hnd : p nd = true) :
    (a ++ nd :: b).find? p = some nd := by
  induction a with
  | nil => simp [List.find?_cons, hnd]
  | cons m a ih =>
    have hmf : p m = false := by
      cases hpm : p m
      · rfl
      · exact absurd hpm (ha m (by simp))
    rw [List.cons_append, List.find?_cons, hmf]
    exact ih (fun x hx => ha x (by simp [hx]))

/-- Each recorded call is built from a snapshot node: same id and listener
reference, the `this` binding decided by the target's truthiness, and the
emit's own arguments. -/
theorem emitLoop_trace_shape {ns : List IEventNode} :
    ∀ (st : RegState) (args : List JSVal) (c : Call),
      c ∈ (emitLoop st ns args).2.1 →
      ∃ n ∈ ns, c.nid = n.id ∧ c.lcode = n.listener.code ∧
        c.thisCtx = (if n.target.truthy then some n.target else none) ∧
        c.args = args := by
  induction ns with
  | nil => intro st args c hc; simp [emitLoop_nil] at hc
  | cons node rest ih =>
    intro st args c hc
    rw [emitLoop_cons] at hc
    by_cases hl : lookupA st.byId node.id = none
    · rw [if_pos hl] at hc
      obtain ⟨n, hn, hp⟩ := ih st args c hc
      exact ⟨n, by simp [hn], hp⟩
    · rw [if_neg hl] at hc
      rcases hr : (applyBeh (if node.onceFlag then unregisterEventNode st node
          else st) node.listener.beh).2 with _ | _
      · simp only [hr, if_false, Bool.false_eq_true] at hc
        rcases List.mem_cons.1 hc with hc | hc
        · exact ⟨node, by simp, by rw [hc], by rw [hc], by rw [hc], by rw [hc]⟩
        · obtain ⟨n, hn, hp⟩ := ih _ args c hc
          exact ⟨n, by simp [hn], hp⟩
      · simp only [hr, if_true] at hc
        rcases List.mem_cons.1 hc with hc | hc
        · exact ⟨node, by simp, by rw [hc], by rw [hc], by rw [hc], by rw [hc]⟩
        · simp at hc

/-- Firing a snapshot that ends in a live `once` node: the node is
unregistered first, its invocation is recorded, and its body runs from the
unregistered state. -/
theorem emitLoop_single_once (stq : RegState) (node : IEventNode)
    (args : List JSVal) (hlive : ¬lookupA stq.byId node.id = none)
    (honce : node.onceFlag = true) :
    emitLoop stq [node] args =
      ((applyBeh (unregisterEventNode stq node) node.listener.beh).1,
        [⟨node.id, node.listener.code,
          if node.target.truthy then some node.target else none, args,
          unregisterEventNode stq node⟩],
        (applyBeh (unregisterEventNode stq node) node.listener.beh).2) := by
  rw [emitLoop_cons_live [] args hlive, honce]
  simp only [if_true]
  rcases hr : (applyBeh (unregisterEventNode stq node) node.listener.beh).2 with _ | _
  · simp only [hr, Bool.false_eq_true, if_false, emitLoop_nil]
  · simp only [hr, if_true]

/-- The anatomy of `once(t, L)` followed by `emit(t, args)` on a registry
whose existing listeners are all inert: every pre-existing listener of `t`
fires first in order, then the fresh subscription is removed from both
indexes and `L` is invoked exactly once with `args`, from the state in
which its subscription is already gone. -/
theorem once_emit_master {st : RegState} (hwf : WF st) (t : Nat) (L : Listener)
    (args : List JSVal)
    (hinert : ∀ i n, lookupA st.byId i = some n → n.listener.beh = Beh.inert) :
    ∃ st1' : RegState,
      (emit (once st t L JSVal.vnull none).1 t args).1 = (applyBeh st1' L.beh).1 ∧
      (emit (once st t L JSVal.vnull none).1 t args).2.2 = (applyBeh st1' L.beh).2 ∧
      (emit (once st t L JSVal.vnull none).1 t args).2.1.map Call.view =
        (getEventNodes st t).map (nodeView args) ++
          [(Nat.repr st.idCounter, L.code, none, args)] ∧
      WF st1' ∧
      lookupA st1'.byId (Nat.repr st.idCounter) = none ∧
      st.idCounter < st1'.idCounter ∧
      (∀ ns, lookupA st1'.byType t = some ns →
        ∀ nd ∈ ns, nd.id ≠ Nat.repr st.idCounter) ∧
      ∀ c ∈ (emit (once st t L JSVal.vnull none).1 t args).2.1,
        c.nid = Nat.repr st.idCounter → c.stAtCall = st1' := by
  have honce : once st t L JSVal.vnull none = «on» st t L JSVal.vnull (some ⟨some true⟩) := rfl
  set newNode : IEventNode :=
    ⟨Nat.repr st.idCounter, t, L, JSVal.vnull, some ⟨some true⟩⟩ with hnew
  set st1 := (once st t L JSVal.vnull none).1 with hst1
  have hwf1 : WF st1 := once_WF st t L JSVal.vnull none hwf
  set pre := getEventNodes st t with hpre
  have hb1 : getEventNodes st1 t = pre ++ [newNode] := by
    rw [hst1, honce]
    exact getEventNodes_on_self st t L JSVal.vnull (some ⟨some true⟩)
  have hpre_ne : ∀ n ∈ pre, n.id ≠ Nat.repr st.idCounter := by
    intro n hn he
    obtain ⟨k, hk, hek⟩ := hwf.getEventNodes_id_bound t n hn
    rw [hek] at he
    exact absurd (natRepr_injective he) (Nat.ne_of_lt hk)
  have hpre_live1 : ∀ n ∈ pre, lookupA st1.byId n.id = some n := by
    intro n hn
    rw [hst1, honce, on_byId_ne _ _ _ _ (hpre_ne n hn)]
    exact hwf.getEventNodes_live t n hn
  have hpre_inert : ∀ n ∈ pre, n.listener.beh = Beh.inert := fun n hn =>
    hinert n.id n (hwf.getEventNodes_live t n hn)
  have hpre_nodup : (pre.map IEventNode.id).Nodup := hwf.getEventNodes_ids_nodup t
  have hsnap : lookupA st1.byType t = some (pre ++ [newNode]) :=
    getEventNodes_some hb1 (by simp)
  have hemit : emit st1 t args = emitLoop st1 (pre ++ [newNode]) args :=
    emit_dest args hsnap (by simp)
  obtain ⟨he1, he2, he3, tr0, htr0, htr0m⟩ :=
    emitLoop_inert_append pre st1 [newNode] args hwf1
      hpre_inert hpre_live1 hpre_nodup
  set stp := processOnce st1 pre with hstp
  have hwfp : WF stp := processOnce_WF hwf1
  have hnewlive : lookupA stp.byId newNode.id = some newNode := by
    rw [hstp, processOnce_byId_not_mem _ (by
      intro hmem
      simp only [List.mem_map] at hmem
      obtain ⟨m, hm, hmid⟩ := hmem
      exact hpre_ne m hm hmid)]
    rw [hst1, honce]
    exact on_byId_self st t L JSVal.vnull (some ⟨some true⟩)
  have hloop := emitLoop_single_once stp newNode args
    (by simp [hnewlive]) rfl
  set st1' := unregisterEventNode stp newNode with hst1'
  have hcode : newNode.listener.code = L.code := rfl
  have hctx : (if newNode.target.truthy then some newNode.target else none) =
      (none : Option JSVal) := rfl
  have hbeh : newNode.listener.beh = L.beh := rfl
  refine ⟨st1', ?_, ?_, ?_, ?_, ?_, ?_, ?_, ?_⟩
  · rw [hemit, he1, hloop]
  · rw [hemit, he3, hloop]
  · rw [hemit, he2, hloop]
    simp only [List.map_cons, List.map_nil, Call.view, hcode, hctx]
  · exact unregisterEventNode_WF hwfp newNode
  · exact unregisterEventNode_byId_self hwfp hnewlive
  · rw [hst1', unregisterEventNode_idCounter, hstp, processOnce_idCounter,
      hst1, honce, on_idCounter]
    exact Nat.lt_succ_self _
  · intro ns hns nd hnd he
    have hwf1' : WF st1' := unregisterEventNode_WF hwfp newNode
    have := hwf1'.bucketToId t ns hns nd hnd
    rw [he] at this
    rw [unregisterEventNode_byId_self hwfp hnewlive] at this
    exact Option.noConfusion this
  · intro c hc hcnid
    rw [hemit, htr0, hloop] at hc
    rcases List.mem_append.1 hc with hc | hc
    · have := htr0m c hc
      simp only [List.mem_map] at this
      obtain ⟨m, hm, hmid⟩ := this
      exact absurd (hmid ▸ hcnid) (hpre_ne m hm)
    · simp only [List.mem_singleton] at hc
      rw [hc]

theorem emitLoop_cons_live_ok {st : RegState} {node : IEventNode}
    (rest : List IEventNode) (args : List JSVal)
    (hl : ¬lookupA st.byId node.id = none)
    (hr : (applyBeh (if node.onceFlag then unregisterEventNode st node else st)
      node.listener.beh).2 = false) :
    emitLoop st (node :: rest) args =
      ((emitLoop (applyBeh (if node.onceFlag then unregisterEventNode st node
          else st) node.listener.beh).1 rest args).1,
        (⟨node.id, node.listener.code,
          if node.target.truthy then some node.target else none, args,
          if node.onceFlag then unregisterEventNode st node else st⟩ : Call) ::
          (emitLoop (applyBeh (if node.onceFlag then unregisterEventNode st node
            else st) node.listener.beh).1 rest args).2.1,
        (emitLoop (applyBeh (if node.onceFlag then unregisterEventNode st node
          else st) node.listener.beh).1 rest args).2.2) := by
  rw [emitLoop_cons_live rest args hl]
  simp only [hr, Bool.false_eq_true, if_false]

/-- C1: after `once(t, L)`, two successive `emit(t, args)` calls invoke the
new subscription exactly once in total — in the first emit, last in order,
with the first emit's arguments — the subscription's id is fresh, at the
moment `L`'s body starts the subscription is gone from both the id index
and the type bucket, and no call of the second emit carries its id. -/
theorem C1_once_semantics {st : RegState} (t : Nat) (L : Listener)
    (args : List JSVal) (hwf : WF st)
    (hinert : ∀ i n, lookupA st.byId i = some n → n.listener.beh = Beh.inert) :
    ((emit (once st t L JSVal.vnull none).1 t args).2.1.map Call.view =
        (getEventNodes st t).map (nodeView args) ++
          [((once st t L JSVal.vnull none).2, L.code, none, args)] ∧
      ∀ n ∈ getEventNodes st t, n.id ≠ (once st t L JSVal.vnull none).2) ∧
    (∀ c ∈ (emit (once st t L JSVal.vnull none).1 t args).2.1,
      c.nid = (once st t L JSVal.vnull none).2 →
        lookupA c.stAtCall.byId c.nid = none ∧
        ∀ ns, lookupA c.stAtCall.byType t = some ns →
          ∀ nd ∈ ns, nd.id ≠ c.nid) ∧
    (∀ c ∈ (emit (emit (once st t L JSVal.vnull none).1 t args).1 t args).2.1,
      c.nid ≠ (once st t L JSVal.vnull none).2) := by
  obtain ⟨st1', h1, h2, h3, h4, h5, h6, h7, h8⟩ :=
    once_emit_master hwf t L args hinert
  rw [once_snd]
  refine ⟨⟨h3, ?_⟩, ?_, ?_⟩
  · intro n hn he
    obtain ⟨k, hk, hek⟩ := hwf.getEventNodes_id_bound t n hn
    rw [hek] at he
    exact absurd (natRepr_injective he) (Nat.ne_of_lt hk)
  · intro c hc hcnid
    rw [h8 c hc hcnid, hcnid]
    exact ⟨h5, h7⟩
  · intro c hc he
    have hst2wf : WF (applyBeh st1' L.beh).1 := applyBeh_WF h4 L.beh
    have hnone : lookupA (applyBeh st1' L.beh).1.byId (Nat.repr st.idCounter) =
        none := applyBeh_byId_none_bounded L.beh h6 h5
    rw [h1] at hc
    have hlive := emit_trace_live hst2wf t args c hc
    rw [he] at hlive
    exact hlive hnone

theorem C1_once_semantics_witness :
    (emit (once initState 0 ⟨5, Beh.inert⟩ JSVal.vnull none).1 0
        [JSVal.vstr "Bob"]).2.1.map Call.view =
      (getEventNodes initState 0).map (nodeView [JSVal.vstr "Bob"]) ++
        [((once initState 0 ⟨5, Beh.inert⟩ JSVal.vnull none).2, 5, none,
          [JSVal.vstr "Bob"])] :=
  (C1_once_semantics 0 ⟨5, Beh.inert⟩ [JSVal.vstr "Bob"] WF_initState
    (fun i n hin => absurd hin (by simp [initState]))).1.1

/-- C10: a `once` subscription whose listener throws during `emit` stays
removed from both indexes — the emit reports the error, the id is gone from
the id index, no bucket node carries it, and a second emit of the same type
never invokes it. -/
theorem C10_once_removed_despite_throw {st : RegState} (t : Nat) (code : Nat)
    (args : List JSVal) (hwf : WF st)
    (hinert : ∀ i n, lookupA st.byId i = some n → n.listener.beh = Beh.inert) :
    (emit (once st t ⟨code, Beh.raiseErr⟩ JSVal.vnull none).1 t args).2.2 =
        true ∧
      lookupA (emit (once st t ⟨code, Beh.raiseErr⟩ JSVal.vnull none).1 t
          args).1.byId (once st t ⟨code, Beh.raiseErr⟩ JSVal.vnull none).2 =
        none ∧
      (∀ ns, lookupA (emit (once st t ⟨code, Beh.raiseErr⟩ JSVal.vnull
          none).1 t args).1.byType t = some ns →
        ∀ nd ∈ ns,
          nd.id ≠ (once st t ⟨code, Beh.raiseErr⟩ JSVal.vnull none).2) ∧
      ∀ c ∈ (emit (emit (once st t ⟨code, Beh.raiseErr⟩ JSVal.vnull none).1 t
          args).1 t args).2.1,
        c.nid ≠ (once st t ⟨code, Beh.raiseErr⟩ JSVal.vnull none).2 := by
  obtain ⟨st1', h1, h2, h3, h4, h5, h6, h7, h8⟩ :=
    once_emit_master hwf t ⟨code, Beh.raiseErr⟩ args hinert
  have happ : applyBeh st1' (Listener.mk code Beh.raiseErr).beh =
      (st1', true) := rfl
  rw [once_snd]
  refine ⟨?_, ?_, ?_, ?_⟩
  · rw [h2, happ]
  · rw [h1, happ]
    exact h5
  · rw [h1, happ]
    exact h7
  · intro c hc he
    rw [h1, happ] at hc
    have hlive := emit_trace_live h4 t args c hc
    rw [he] at hlive
    exact hlive h5

theorem C10_once_removed_despite_throw_witness :
    (emit (once initState 3 ⟨9, Beh.raiseErr⟩ JSVal.vnull none).1 3
        [JSVal.vnum 2]).2.2 = true ∧
      lookupA (emit (once initState 3 ⟨9, Beh.raiseErr⟩ JSVal.vnull none).1 3
          [JSVal.vnum 2]).1.byId
        (once initState 3 ⟨9, Beh.raiseErr⟩ JSVal.vnull none).2 = none :=
  ⟨(C10_once_removed_despite_throw 3 9 [JSVal.vnum 2] WF_initState
      (fun i n hin => absurd hin (by simp [initState]))).1,
    (C10_once_removed_despite_throw 3 9 [JSVal.vnum 2] WF_initState
      (fun i n hin => absurd hin (by simp [initState]))).2.1⟩

/-- C3: `on` appends the new subscription to the end of its type's bucket
(creating it when absent — `getEventNodes` shows the same append either
way) and leaves other buckets alone; `emit` invokes the listeners live at
its snapshot in exactly registration order, each with the emit's
arguments. -/
theorem C3_registration_order {st : RegState} (hwf : WF st) (t : Nat)
    (l : Listener) (tg : JSVal) (o : Option IEventOptions)
    (args : List JSVal) :
    getEventNodes («on» st t l tg o).1 t =
        getEventNodes st t ++ [⟨Nat.repr st.idCounter, t, l, tg, o⟩] ∧
      (∀ u, u ≠ t → getEventNodes («on» st t l tg o).1 u = getEventNodes st u) ∧
      ((∀ n ∈ getEventNodes st t, n.listener.beh = Beh.inert) →
        (emit st t args).2.1.map Call.view =
            (getEventNodes st t).map (nodeView args) ∧
          (emit st t args).2.2 = false) := by
  refine ⟨getEventNodes_on_self st t l tg o,
    fun u hu => getEventNodes_on_ne st t l tg o hu, ?_⟩
  intro hin
  rcases hns : lookupA st.byType t with _ | ns
  · rw [emit_absent args hns]
    constructor
    · simp [getEventNodes, hns]
    · rfl
  · have hne := hwf.bucketNe t ns hns
    have hgb : getEventNodes st t = ns := by simp [getEventNodes, hns]
    rw [emit_dest args hns hne]
    rw [hgb] at hin ⊢
    obtain ⟨he1, he2, he3, _⟩ :=
      emitLoop_inert_append ns st [] args hwf hin
        (fun n hn => hwf.bucketToId t ns hns n hn) (hwf.bucketIdsNodup t ns hns)
    rw [List.append_nil] at he2 he3
    constructor
    · rw [he2]
      simp [emitLoop_nil]
    · rw [he3]
      rfl

theorem C3_registration_order_witness :
    (emit (run [Op.opOn 0 ⟨1, Beh.inert⟩ JSVal.vnull none,
        Op.opOn 0 ⟨2, Beh.inert⟩ JSVal.vnull none])
      0 [JSVal.vnum 4]).2.1.map Call.view =
      (getEventNodes (run [Op.opOn 0 ⟨1, Beh.inert⟩ JSVal.vnull none,
          Op.opOn 0 ⟨2, Beh.inert⟩ JSVal.vnull none]) 0).map
        (nodeView [JSVal.vnum 4]) :=
  ((C3_registration_order
      (run_WF [Op.opOn 0 ⟨1, Beh.inert⟩ JSVal.vnull none,
        Op.opOn 0 ⟨2, Beh.inert⟩ JSVal.vnull none])
      0 ⟨3, Beh.inert⟩ JSVal.vnull none [JSVal.vnum 4]).2.2
    (by decide)).1

/-- C2: if, during `emit(t, …)`, the listener at position `k` of the
snapshot calls `offAll(t)`, every listener before position `k` still fires
in order, the listener at `k` itself fires, no listener after `k` fires,
and the emit completes without error. -/
theorem C2_reentrant_offAll (st : RegState) (hwf : WF st) (t : Nat)
    (a b : List IEventNode) (nk : IEventNode) (args : List JSVal)
    (hb : getEventNodes st t = a ++ nk :: b)
    (ha : ∀ n ∈ a, n.listener.beh = Beh.inert)
    (hk : nk.listener.beh = Beh.doOffAll (some t)) :
    (emit st t args).2.1.map Call.view =
        a.map (nodeView args) ++ [nodeView args nk] ∧
      (emit st t args).2.2 = false := by
  have hns : lookupA st.byType t = some (a ++ nk :: b) :=
    getEventNodes_some hb (by simp)
  have hemit : emit st t args = emitLoop st (a ++ nk :: b) args :=
    emit_dest args hns (by simp)
  have hidsnd : ((a ++ nk :: b).map IEventNode.id).Nodup :=
    hwf.bucketIdsNodup t _ hns
  have hand : (a.map IEventNode.id).Nodup :=
    hidsnd.sublist (List.Sublist.map _ (List.sublist_append_left _ _))
  have hnk_not_a : nk.id ∉ a.map IEventNode.id := by
    rw [List.map_append, List.map_cons] at hidsnd
    have := (List.nodup_append.1 hidsnd).2.2
    intro hmem
    exact this hmem (by simp)
  have hb_not_a : ∀ p ∈ b, p.id ∉ a.map IEventNode.id := by
    rw [List.map_append, List.map_cons] at hidsnd
    have := (List.nodup_append.1 hidsnd).2.2
    intro p hp hmem
    exact this hmem (by simp [List.mem_map_of_mem _ hp])
  have hb_ne_nk : ∀ p ∈ b, p.id ≠ nk.id := by
    rw [List.map_append, List.map_cons] at hidsnd
    have := (List.nodup_append.1 hidsnd).2.1
    rw [List.nodup_cons] at this
    intro p hp he
    exact this.1 (he ▸ List.mem_map_of_mem _ hp)
  have hlivea : ∀ n ∈ a, lookupA st.byId n.id = some n := fun n hn =>
    hwf.bucketToId t _ hns n (List.mem_append_left _ hn)
  obtain ⟨he1, he2, he3, _⟩ :=
    emitLoop_inert_append a st (nk :: b) args hwf ha hlivea hand
  set stp := processOnce st a with hstp
  have hwfp : WF stp := processOnce_WF hwf
  have hnk_live : lookupA stp.byId nk.id = some nk := by
    rw [hstp, processOnce_byId_not_mem _ hnk_not_a]
    exact hwf.bucketToId t _ hns nk (by simp)
  set st1 := if nk.onceFlag then unregisterEventNode stp nk else stp with hst1
  have hwf1 : WF st1 := by
    rw [hst1]
    split
    · exact unregisterEventNode_WF hwfp nk
    · exact hwfp
  have hlive_b_st1 : ∀ p ∈ b, lookupA st1.byId p.id = some p := by
    intro p hp
    have h0 : lookupA st.byId p.id = some p :=
      hwf.bucketToId t _ hns p (by simp [hp])
    have h1 : lookupA stp.byId p.id = some p := by
      rw [hstp, processOnce_byId_not_mem _ (hb_not_a p hp)]
      exact h0
    rw [hst1]
    split
    · rw [unregisterEventNode_byId_ne nk (hb_ne_nk p hp)]
      exact h1
    · exact h1
  have happ : applyBeh st1 nk.listener.beh = (offAll st1 (some t), false) := by
    rw [hk]
    exact rfl
  have hnone_b : ∀ p ∈ b, lookupA (offAll st1 (some t)).byId p.id = none := by
    intro p hp
    exact offAll_byId_live_type hwf1 (hlive_b_st1 p hp)
      (hwf.bucketType t _ hns p (by simp [hp]))
  have hskip : emitLoop (offAll st1 (some t)) b args =
      (offAll st1 (some t), [], false) := emitLoop_skip_all args hnone_b
  have hloop : emitLoop stp (nk :: b) args =
      (offAll st1 (some t),
        [⟨nk.id, nk.listener.code,
          if nk.target.truthy then some nk.target else none, args, st1⟩],
        false) := by
    rw [emitLoop_cons_live_ok b args (by simp [hnk_live]) (by rw [← hst1, happ])]
    rw [← hst1, happ]
    rw [hskip]
  constructor
  · rw [hemit, he2, hloop]
    rfl
  · rw [hemit, he3, hloop]

theorem C2_reentrant_offAll_witness :
    (emit (run [Op.opOn 0 ⟨1, Beh.inert⟩ JSVal.vnull none,
        Op.opOn 0 ⟨2, Beh.doOffAll (some 0)⟩ JSVal.vnull none,
        Op.opOn 0 ⟨3, Beh.inert⟩ JSVal.vnull none]) 0 []).2.1.map Call.view =
      [⟨"0", 1, none, []⟩, ⟨"1", 2, none, []⟩] := by
  have h := C2_reentrant_offAll
    (run [Op.opOn 0 ⟨1, Beh.inert⟩ JSVal.vnull none,
      Op.opOn 0 ⟨2, Beh.doOffAll (some 0)⟩ JSVal.vnull none,
      Op.opOn 0 ⟨3, Beh.inert⟩ JSVal.vnull none])
    (run_WF _) 0
    [⟨"0", 0, ⟨1, Beh.inert⟩, JSVal.vnull, none⟩]
    [⟨"2", 0, ⟨3, Beh.inert⟩, JSVal.vnull, none⟩]
    ⟨"1", 0, ⟨2, Beh.doOffAll (some 0)⟩, JSVal.vnull, none⟩
    [] (by decide) (by decide) (by decide)
  rw [h.1]
  decide

/-- C4 counterexample: a subscription registered with the target value
`false` — a present, non-null, non-undefined target — is invoked UNBOUND,
because `emit` tests `if (eventNode.target)` (truthiness), not presence.
The claim "registered with a target value present ⟹ invoked bound to that
target" is therefore false on the code. -/
theorem C4_target_binding_counterexample :
    (getEventNodes (run [Op.opOn 0 ⟨0, Beh.inert⟩ (JSVal.vbool false) none])
        0).map IEventNode.target = [JSVal.vbool false] ∧
      JSVal.vbool false ≠ JSVal.vnull ∧
      JSVal.vbool false ≠ JSVal.vundef ∧
      (emit (run [Op.opOn 0 ⟨0, Beh.inert⟩ (JSVal.vbool false) none]) 0
          [JSVal.vnum 3]).2.1.map (fun c => c.thisCtx) = [none] := by
  decide

/-- C4 (amended): every call an `emit` makes receives exactly the emit's
arguments and comes from a registered subscription of that type whose
listener reference it carries; it is bound to the subscription's target iff
that target is truthy (in particular any object target), and unbound when
the target is null or otherwise falsy. -/
theorem C4_target_binding {st : RegState} (hwf : WF st) (t : Nat)
    (args : List JSVal) :
    ∀ c ∈ (emit st t args).2.1, c.args = args ∧
      ∃ n ∈ getEventNodes st t, n.id = c.nid ∧ c.lcode = n.listener.code ∧
        c.thisCtx = (if n.target.truthy then some n.target else none) := by
  intro c hc
  rcases hns : lookupA st.byType t with _ | ns
  · rw [emit_absent args hns] at hc
    simp at hc
  · have hne := hwf.bucketNe t ns hns
    rw [emit_dest args hns hne] at hc
    obtain ⟨n, hn, hnid, hlc, hctx, hargs⟩ := emitLoop_trace_shape st args c hc
    have hgb : getEventNodes st t = ns := by simp [getEventNodes, hns]
    exact ⟨hargs, n, hgb ▸ hn, hnid.symm, hlc, hctx⟩

theorem C4_target_binding_witness :
    ∃ n ∈ getEventNodes (run [Op.opOn 0 ⟨6, Beh.inert⟩ (JSVal.vobj 7) none]) 0,
      n.id = "0" ∧ (6 : Nat) = n.listener.code ∧
        (some (JSVal.vobj 7) : Option JSVal) =
          (if n.target.truthy then some n.target else none) :=
  (C4_target_binding (run_WF [Op.opOn 0 ⟨6, Beh.inert⟩ (JSVal.vobj 7) none])
    0 [JSVal.vstr "x"]
    ⟨"0", 6, some (JSVal.vobj 7), [JSVal.vstr "x"],
      ⟨1, [(0, [⟨"0", 0, ⟨6, Beh.inert⟩, JSVal.vobj 7, none⟩])],
        [("0", ⟨"0", 0, ⟨6, Beh.inert⟩, JSVal.vobj 7, none⟩)]⟩⟩
    (by decide)).2

/-- C5: in every reachable state, a subscription record is in the bucket
for `t` iff it is in the id index under its id and its type is `t`; the id
index binds each id once, the type index binds each type once, and each
bucket lists pairwise distinct ids — so a live subscription appears in
exactly one bucket and exactly once in the id index, and no operation can
leave one index updated without the other. -/
theorem C5_dual_index_consistency (ops : List Op) :
    (∀ (n : IEventNode) (t : Nat),
        (∃ ns, lookupA (run ops).byType t = some ns ∧ n ∈ ns) ↔
          (lookupA (run ops).byId n.id = some n ∧ n.type = t)) ∧
      (keysA (run ops).byId).Nodup ∧
      (keysA (run ops).byType).Nodup ∧
      ∀ t ns, lookupA (run ops).byType t = some ns →
        (ns.map IEventNode.id).Nodup := by
  have h := run_WF ops
  refine ⟨?_, h.idKeysNodup, h.typeKeysNodup,
    fun t ns hns => h.bucketIdsNodup t ns hns⟩
  intro n t
  constructor
  · rintro ⟨ns, hns, hmem⟩
    exact ⟨h.bucketToId t ns hns n hmem, h.bucketType t ns hns n hmem⟩
  · rintro ⟨hlive, ht⟩
    obtain ⟨_, ns, hns, hmem⟩ := h.idToBucket n.id n hlive
    exact ⟨ns, ht ▸ hns, hmem⟩

theorem C5_dual_index_consistency_witness :
    lookupA (run [Op.opOn 2 ⟨1, Beh.inert⟩ JSVal.vnull none]).byId "0" =
        some ⟨"0", 2, ⟨1, Beh.inert⟩, JSVal.vnull, none⟩ ∧
      (⟨"0", 2, ⟨1, Beh.inert⟩, JSVal.vnull, none⟩ : IEventNode).type = 2 :=
  ((C5_dual_index_consistency [Op.opOn 2 ⟨1, Beh.inert⟩ JSVal.vnull none]).1
    ⟨"0", 2, ⟨1, Beh.inert⟩, JSVal.vnull, none⟩ 2).1
    ⟨[⟨"0", 2, ⟨1, Beh.inert⟩, JSVal.vnull, none⟩], by decide, by decide⟩

/-- C6: two simultaneously-live subscriptions never share an id, and the
ids handed out by the registrations of any operation sequence on one
instance are pairwise distinct — an id is never reused. -/
theorem C6_id_uniqueness (ops : List Op) :
    (∀ m n : IEventNode, lookupA (run ops).byId m.id = some m →
        lookupA (run ops).byId n.id = some n → m.id = n.id → m = n) ∧
      (assignedIdsFrom initState ops).Nodup := by
  refine ⟨?_, assignedIdsFrom_nodup ops initState⟩
  intro m n hm hn he
  rw [he, hn] at hm
  exact (Option.some_injective _ hm).symm

theorem C6_id_uniqueness_witness :
    (assignedIdsFrom initState
        [Op.opOn 0 ⟨1, Beh.inert⟩ JSVal.vnull none,
          Op.opOffById "0",
          Op.opOnce 0 ⟨1, Beh.inert⟩ JSVal.vnull none]).Nodup ∧
      (⟨"1", 0, ⟨1, Beh.inert⟩, JSVal.vnull, some ⟨some true⟩⟩ : IEventNode) =
        ⟨"1", 0, ⟨1, Beh.inert⟩, JSVal.vnull, some ⟨some true⟩⟩ :=
  ⟨(C6_id_uniqueness [Op.opOn 0 ⟨1, Beh.inert⟩ JSVal.vnull none,
      Op.opOffById "0", Op.opOnce 0 ⟨1, Beh.inert⟩ JSVal.vnull none]).2,
    (C6_id_uniqueness [Op.opOn 0 ⟨1, Beh.inert⟩ JSVal.vnull none,
        Op.opOffById "0", Op.opOnce 0 ⟨1, Beh.inert⟩ JSVal.vnull none]).1
      ⟨"1", 0, ⟨1, Beh.inert⟩, JSVal.vnull, some ⟨some true⟩⟩
      ⟨"1", 0, ⟨1, Beh.inert⟩, JSVal.vnull, some ⟨some true⟩⟩
      (by decide) (by decide) (by decide)⟩

/-- `_off` with no matching listener/target pair in the bucket leaves the
state untouched. -/
theorem offTL_not_found {st : RegState} (t : Nat) (l : Listener) (tg : JSVal)
    (hnone : ∀ m ∈ getEventNodes st t, ¬(m.listener = l ∧ m.target = tg)) :
    offTL st t l tg = st := by
  unfold offTL
  rcases hl : lookupA st.byType t with _ | ns
  · simp only [hl]
  · simp only [hl]
    have hgb : getEventNodes st t = ns := by simp [getEventNodes, hl]
    have : ns.find? (fun n => n.listener = l ∧ n.target = tg) = none := by
      rw [List.find?_eq_none]
      intro m hm
      simpa using hnone m (hgb ▸ hm)
    simp only [this]

/-- C7: identity-based `off(type, listener, target)` removes exactly the
first subscription of the type's bucket whose listener and target both
match — from both indexes, leaving every other subscription and every other
bucket untouched — and is a no-op when nothing matches, so at most one
subscription is removed per call even when duplicates exist. -/
theorem C7_off_identity {st : RegState} (hwf : WF st) (t : Nat) (l : Listener)
    (tg : JSVal) :
    (∀ (a b : List IEventNode) (nd : IEventNode),
      getEventNodes st t = a ++ nd :: b →
      (nd.listener = l ∧ nd.target = tg) →
      (∀ m ∈ a, ¬(m.listener = l ∧ m.target = tg)) →
        getEventNodes (offTL st t l tg) t = a ++ b ∧
        lookupA (offTL st t l tg).byId nd.id = none ∧
        (∀ i, i ≠ nd.id →
          lookupA (offTL st t l tg).byId i = lookupA st.byId i) ∧
        (∀ u, u ≠ t →
          getEventNodes (offTL st t l tg) u = getEventNodes st u)) ∧
    ((∀ m ∈ getEventNodes st t, ¬(m.listener = l ∧ m.target = tg)) →
      offTL st t l tg = st) := by
  constructor
  · intro a b nd hb hnd ha
    have hns : lookupA st.byType t = some (a ++ nd :: b) :=
      getEventNodes_some hb (by simp)
    have hfind : (a ++ nd :: b).find?
        (fun n => n.listener = l ∧ n.target = tg) = some nd := by
      refine find_first a nd b ?_ ?_
      · intro m hm
        simpa using ha m hm
      · simpa using hnd
    have hoff : offTL st t l tg = unregisterEventNode st nd := by
      unfold offTL
      simp only [hns, hfind]
    have htype : nd.type = t := hwf.bucketType t _ hns nd (by simp)
    have hlive : lookupA st.byId nd.id = some nd :=
      hwf.bucketToId t _ hns nd (by simp)
    have hnodup : (a ++ nd :: b).Nodup :=
      (hwf.bucketIdsNodup t _ hns).of_map _
    have hnd_not_a : nd ∉ a := by
      have := List.disjoint_of_nodup_append hnodup
      intro hmem
      exact this hmem (by simp)
    refine ⟨?_, ?_, ?_, ?_⟩
    · rw [hoff, ← htype, unregisterEventNode_getEventNodes_self hwf nd,
        htype, hb, List.erase_append_right _ hnd_not_a, List.erase_cons_head]
    · rw [hoff]
      exact unregisterEventNode_byId_self hwf hlive
    · intro i hi
      rw [hoff]
      exact unregisterEventNode_byId_ne nd hi
    · intro u hu
      rw [hoff]
      unfold getEventNodes
      rw [unregisterEventNode_byType_ne nd (htype ▸ hu)]
  · exact offTL_not_found t l tg

theorem C7_off_identity_witness :
    getEventNodes
        (offTL (run [Op.opOn 0 ⟨1, Beh.inert⟩ JSVal.vnull none,
            Op.opOn 0 ⟨2, Beh.inert⟩ JSVal.vnull none,
            Op.opOn 0 ⟨2, Beh.inert⟩ JSVal.vnull none])
          0 ⟨2, Beh.inert⟩ JSVal.vnull) 0 =
      [⟨"0", 0, ⟨1, Beh.inert⟩, JSVal.vnull, none⟩,
        ⟨"2", 0, ⟨2, Beh.inert⟩, JSVal.vnull, none⟩] := by
  have h := (C7_off_identity
    (run_WF [Op.opOn 0 ⟨1, Beh.inert⟩ JSVal.vnull none,
      Op.opOn 0 ⟨2, Beh.inert⟩ JSVal.vnull none,
      Op.opOn 0 ⟨2, Beh.inert⟩ JSVal.vnull none]) 0 ⟨2, Beh.inert⟩
    JSVal.vnull).1
    [⟨"0", 0, ⟨1, Beh.inert⟩, JSVal.vnull, none⟩]
    [⟨"2", 0, ⟨2, Beh.inert⟩, JSVal.vnull, none⟩]
    ⟨"1", 0, ⟨2, Beh.inert⟩, JSVal.vnull, none⟩
    (by decide) (by decide) (by decide)
  exact h.1

/-- C8: not-found conditions are silent no-ops: unknown-id `off`, unmatched
identity `off`, `emit` of an unregistered type (no calls, no error), an
empty `getEventNodes` result, `offAll` of an unregistered type, and the
second call of the unsubscribe function returned by `on`/`once`. -/
theorem C8_not_found_noops (st : RegState) (t : Nat) (l : Listener)
    (tg : JSVal) (o : Option IEventOptions) (i : String) (args : List JSVal)
    (hwf : WF st) :
    (lookupA st.byId i = none → offById st i = st) ∧
    ((∀ m ∈ getEventNodes st t, ¬(m.listener = l ∧ m.target = tg)) →
      offTL st t l tg = st) ∧
    (lookupA st.byType t = none → emit st t args = (st, [], false)) ∧
    (lookupA st.byType t = none → getEventNodes st t = []) ∧
    (lookupA st.byType t = none → offAll st (some t) = st) ∧
    (offById (offById («on» st t l tg o).1 («on» st t l tg o).2)
        («on» st t l tg o).2 =
      offById («on» st t l tg o).1 («on» st t l tg o).2) := by
  refine ⟨fun h => offById_absent h,
    offTL_not_found t l tg,
    fun h => emit_absent args h,
    fun h => by simp [getEventNodes, h],
    fun h => offAll_some_absent h, ?_⟩
  have hwf1 : WF («on» st t l tg o).1 := on_WF st t l tg o hwf
  have hself := on_byId_self st t l tg o
  have hfirst : offById («on» st t l tg o).1 (Nat.repr st.idCounter) =
      unregisterEventNode («on» st t l tg o).1
        ⟨Nat.repr st.idCounter, t, l, tg, o⟩ := by
    unfold offById
    simp only [hself]
  rw [on_snd, hfirst]
  apply offById_absent
  exact unregisterEventNode_byId_self hwf1 hself

theorem C8_not_found_noops_witness :
    offById (run [Op.opOn 0 ⟨0, Beh.inert⟩ JSVal.vnull none]) "77" =
        run [Op.opOn 0 ⟨0, Beh.inert⟩ JSVal.vnull none] ∧
      emit (run [Op.opOn 0 ⟨0, Beh.inert⟩ JSVal.vnull none]) 5 [] =
        (run [Op.opOn 0 ⟨0, Beh.inert⟩ JSVal.vnull none], [], false) ∧
      getEventNodes (run [Op.opOn 0 ⟨0, Beh.inert⟩ JSVal.vnull none]) 5 = [] := by
  have h := C8_not_found_noops (run [Op.opOn 0 ⟨0, Beh.inert⟩ JSVal.vnull none])
    5 ⟨0, Beh.inert⟩ JSVal.vnull none "77" [] (run_WF _)
  exact ⟨h.1 (by decide), h.2.2.1 (by decide), h.2.2.2.1 (by decide)⟩

/-- C9: when any removal path — id-based `off`, identity-based `off`, the
`once` auto-removal during `emit`, or `offAll` — removes the last
subscription of type `t`, the bucket is deleted entirely: `getEventNodes`
returns `[]` and `t` is absent from the types `getStatusInfo` enumerates,
exactly as for a type never registered. -/
theorem C9_empty_bucket_cleanup {st : RegState} (hwf : WF st) (t : Nat)
    (nd : IEventNode) (args : List JSVal) (hb : getEventNodes st t = [nd]) :
    (getEventNodes (offById st nd.id) t = [] ∧
      t ∉ statusTypes (offById st nd.id)) ∧
    (getEventNodes (offTL st t nd.listener nd.target) t = [] ∧
      t ∉ statusTypes (offTL st t nd.listener nd.target)) ∧
    (nd.onceFlag = true → nd.listener.beh = Beh.inert →
      getEventNodes (emit st t args).1 t = [] ∧
        t ∉ statusTypes (emit st t args).1) ∧
    (getEventNodes (offAll st (some t)) t = [] ∧
      t ∉ statusTypes (offAll st (some t))) := by
  have hns : lookupA st.byType t = some [nd] :=
    getEventNodes_some hb (by simp)
  have htype : nd.type = t := hwf.bucketType t _ hns nd (by simp)
  have hlive : lookupA st.byId nd.id = some nd :=
    hwf.bucketToId t _ hns nd (by simp)
  have hmem : nd ∈ [nd] := by simp
  have hunreg_none : lookupA (unregisterEventNode st nd).byType t = none := by
    rw [unregisterEventNode_dest (htype ▸ hns) hmem]
    show lookupA (if ([nd] : List IEventNode).erase nd = []
      then eraseA st.byType nd.type
      else setA st.byType nd.type (([nd] : List IEventNode).erase nd)) t = none
    rw [if_pos (by simp), ← htype]
    exact lookupA_eraseA_self _ _ hwf.typeKeysNodup
  have hgone : ∀ st' : RegState, lookupA st'.byType t = none →
      getEventNodes st' t = [] ∧ t ∉ statusTypes st' := by
    intro st' h
    exact ⟨by simp [getEventNodes, h], (lookupA_eq_none_iff _ _).1 h⟩
  refine ⟨?_, ?_, ?_, ?_⟩
  · have : offById st nd.id = unregisterEventNode st nd := by
      unfold offById
      simp only [hlive]
    rw [this]
    exact hgone _ hunreg_none
  · have hfind : ([nd] : List IEventNode).find?
        (fun n => n.listener = nd.listener ∧ n.target = nd.target) = some nd := by
      simp [List.find?_cons]
    have : offTL st t nd.listener nd.target = unregisterEventNode st nd := by
      unfold offTL
      simp only [hns, hfind]
    rw [this]
    exact hgone _ hunreg_none
  · intro honce hinert
    have hemit : emit st t args = emitLoop st [nd] args :=
      emit_dest args hns (by simp)
    have hloop := emitLoop_single_once st nd args
      (by simp [hlive]) honce
    have happ : applyBeh (unregisterEventNode st nd) nd.listener.beh =
        (unregisterEventNode st nd, false) := by
      rw [hinert]
      exact rfl
    rw [hemit, hloop, happ]
    exact hgone _ hunreg_none
  · rw [offAll_some_dest hns]
    refine hgone _ ?_
    show lookupA (eraseA st.byType t) t = none
    exact lookupA_eraseA_self _ _ hwf.typeKeysNodup

theorem C9_empty_bucket_cleanup_witness :
    getEventNodes
        (offById (run [Op.opOnce 4 ⟨1, Beh.inert⟩ JSVal.vnull none]) "0") 4 =
        [] ∧
      (4 : Nat) ∉ statusTypes
        (offById (run [Op.opOnce 4 ⟨1, Beh.inert⟩ JSVal.vnull none]) "0") := by
  have h := C9_empty_bucket_cleanup
    (run_WF [Op.opOnce 4 ⟨1, Beh.inert⟩ JSVal.vnull none]) 4
    ⟨"0", 4, ⟨1, Beh.inert⟩, JSVal.vnull, some ⟨some true⟩⟩
    [] (by decide)
  exact h.1
